import Mathlib

/-!
Verification development for the clockr interactive review core
(`internal/tui/app.go`, the batch variant, the allocation editor, the
suggestion reviewer and the submission pipelines), shallowly embedded
in Lean.  Go machine integers are modelled as `Int` (no arithmetic in
the embedded code comes near overflow), `time.Time` values as an `Int`
count of minutes, and fallible operations as `Option`/`Except`.
External collaborators (the bubbles text widgets, the Clockify HTTP
client, the sqlite store) are modelled as parameters or oracles.
-/

namespace Clockr

/-! ## String helpers (Go `strings.ToLower`, `strings.Contains`) -/

/-- Character-list version of Go `strings.HasPrefix`. -/
def startsWithChars : List Char → List Char → Bool
  | [], _ => true
  | _ :: _, [] => false
  | p :: ps, c :: cs => p = c && startsWithChars ps cs

/-- Does `pat` occur as a contiguous substring of `text`? -/
def hasSubstrChars (pat : List Char) : List Char → Bool
  | [] => startsWithChars pat []
  | c :: cs => startsWithChars pat (c :: cs) || hasSubstrChars pat cs

/-- Go `strings.Contains s pat`. -/
def goContains (s pat : String) : Bool :=
  hasSubstrChars pat.toList s.toList

/-- Go `strings.ToLower` (ASCII-faithful; project names are ASCII). -/
def goToLower (s : String) : String :=
  String.mk (s.toList.map Char.toLower)

/-! ## Time parsing (`parseBatchTime`, layout `"2006-01-02 15:04"`)

Go's `time.ParseInLocation("2006-01-02 15:04", date+" "+timeStr, loc)`
requires a 4-digit year, fixed 2-digit month and day (range-checked,
with leap years), a space, a 1-or-2-digit hour `< 24`, a colon and a
fixed 2-digit minute `< 60`.  The result is modelled as minutes on a
proleptic-Gregorian axis; the local-zone offset is a constant shift
and is omitted. -/

def digitVal (c : Char) : Option Nat :=
  if c.isDigit then some (c.toNat - '0'.toNat) else none

def digits2 (a b : Char) : Option Nat := do
  let x ← digitVal a
  let y ← digitVal b
  pure (10 * x + y)

def digits4 (a b c d : Char) : Option Nat := do
  let x ← digits2 a b
  let y ← digits2 c d
  pure (100 * x + y)

def isLeapYear (y : Nat) : Bool :=
  y % 4 = 0 && (y % 100 ≠ 0 || y % 400 = 0)

def daysInMonth (y m : Nat) : Nat :=
  if m = 2 then (if isLeapYear y then 29 else 28)
  else if m = 4 || m = 6 || m = 9 || m = 11 then 30
  else 31

/-- Days in months `1, …, m-1` of year `y`. -/
def daysBeforeMonth (y : Nat) : Nat → Nat
  | 0 => 0
  | m + 1 => if m = 0 then 0 else daysBeforeMonth y m + daysInMonth y m

/-- Whole days on the proleptic-Gregorian axis before year `y`. -/
def daysBeforeYear (y : Nat) : Nat :=
  365 * y + y / 4 + y / 400 - y / 100

/-- Civil date and clock reading to minutes on the time axis. -/
def toEpochMinutes (y mo d h mi : Nat) : Nat :=
  (daysBeforeYear y + daysBeforeMonth y mo + (d - 1)) * 1440 + h * 60 + mi

/-- Parse `"YYYY-MM-DD"` (layout `"2006-01-02"`): fixed widths, month
and day range-checked. -/
def parseGoDate (s : String) : Option (Nat × Nat × Nat) :=
  match s.toList with
  | [y1, y2, y3, y4, '-', m1, m2, '-', d1, d2] => do
    let y ← digits4 y1 y2 y3 y4
    let mo ← digits2 m1 m2
    let d ← digits2 d1 d2
    if 1 ≤ mo && mo ≤ 12 && 1 ≤ d && d ≤ daysInMonth y mo then
      pure (y, mo, d)
    else none
  | _ => none

/-- Parse `"H:MM"` or `"HH:MM"` (layout `"15:04"`): hour is 1 or 2
digits and `< 24`, minute is fixed 2 digits and `< 60`. -/
def parseGoClock (s : String) : Option (Nat × Nat) :=
  match s.toList with
  | [h1, h2, ':', m1, m2] => do
    let h ← digits2 h1 h2
    let mi ← digits2 m1 m2
    if h ≤ 23 && mi ≤ 59 then pure (h, mi) else none
  | [h1, ':', m1, m2] => do
    let h ← digitVal h1
    let mi ← digits2 m1 m2
    if mi ≤ 59 then pure (h, mi) else none
  | _ => none

/-- `parseBatchTime(date, timeStr)` from the batch app: parses
`date + " " + timeStr` with layout `"2006-01-02 15:04"`; `none` is
Go's non-nil error. -/
def parseBatchTime (date timeStr : String) : Option Int := do
  let (y, mo, d) ← parseGoDate date
  let (h, mi) ← parseGoClock timeStr
  pure (toEpochMinutes y mo d h mi : Int)

/-! ## Data model (`internal/ai/models.go`, `clockify/models.go`,
`store.Entry`, `tui.Result`) -/

/-- `clockify.Project` (fields used by the core). -/
structure Project where
  id : String
  name : String
  clientName : String
deriving DecidableEq, Repr

/-- `ai.Allocation`. -/
structure Allocation where
  projectID : String
  projectName : String
  clientName : String
  minutes : Int
  description : String
  confidence : Float
deriving Repr

/-- `ai.Suggestion`. -/
structure Suggestion where
  allocations : List Allocation
  clarification : String
deriving Repr

/-- `ai.BatchAllocation`. -/
structure BatchAllocation where
  date : String
  startTime : String
  endTime : String
  projectID : String
  projectName : String
  clientName : String
  minutes : Int
  description : String
  confidence : Float
deriving Repr

/-- `ai.BatchSuggestion`. -/
structure BatchSuggestion where
  allocations : List BatchAllocation
  clarification : String
deriving Repr

/-- `store.Entry` (time fields as minute counts). -/
structure Entry where
  clockifyID : String
  projectID : String
  projectName : String
  clientName : String
  description : String
  startTime : Int
  endTime : Int
  minutes : Int
  status : String
  rawInput : String
deriving DecidableEq, Repr

def Entry.dflt : Entry :=
  ⟨"", "", "", "", "", 0, 0, 0, "", ""⟩

/-- `tui.Result`. -/
structure Result where
  skipped : Bool
  entries : List Entry
deriving Repr

/-! ## `strconv.Atoi` (used by the minutes-field commit) -/

def digitsValAux (acc : Nat) : List Char → Option Nat
  | [] => some acc
  | c :: cs =>
    match digitVal c with
    | some d => digitsValAux (10 * acc + d) cs
    | none => none

/-- Go `strconv.Atoi`: optional sign then at least one digit, the
whole string consumed (64-bit overflow is far out of the editor's
input range and not modelled). -/
def parseGoInt (s : String) : Option Int :=
  match s.toList with
  | [] => none
  | '+' :: ds => if ds = [] then none else (digitsValAux 0 ds).map Int.ofNat
  | '-' :: ds => if ds = [] then none else (digitsValAux 0 ds).map (fun n => -(n : Int))
  | ds => (digitsValAux 0 ds).map Int.ofNat

/-! ## Submission pipelines

`App.submitAllocations` (app.go:396) and `BatchApp.submitAllocations`
(batch file, lines 255-308).  The Clockify `CreateTimeEntry` call is
an external collaborator, modelled by an oracle giving each call
(numbered in submission order) its outcome: `some id` on success,
`none` on error.  Each constructed `store.Entry` is inserted into the
local store as it is built (when a store is attached) and appended to
the returned list. -/

def CreateOracle := Nat → Option String

/-- Loop body of the single-interval `App.submitAllocations`: walks
forward from `start`, each allocation consuming its minutes, the end
clamped to `endTime` (`entryEnd.After(a.endTime)` is a strict
comparison).  Every entry is appended to the result (and inserted into
the store); the advanced start time is the previous entry's end. -/
def submitAllocationsFrom (create : CreateOracle) (raw : String) (endTime : Int) :
    Nat → Int → List Allocation → List Entry
  | _, _, [] => []
  | idx, start, alloc :: rest =>
    let entryEnd0 := start + alloc.minutes
    let entryEnd := if entryEnd0 > endTime then endTime else entryEnd0
    let outcome := create idx
    let status := match outcome with
      | some _ => "logged"
      | none => "failed"
    let cid := (outcome).getD ""
    let e : Entry :=
      { clockifyID := cid
        projectID := alloc.projectID
        projectName := alloc.projectName
        clientName := alloc.clientName
        description := alloc.description
        startTime := start
        endTime := entryEnd
        minutes := alloc.minutes
        status := status
        rawInput := raw }
    e :: submitAllocationsFrom create raw endTime (idx + 1) entryEnd rest

/-- `App.submitAllocations` (single-interval). -/
def submitAllocations (create : CreateOracle) (raw : String)
    (startTime endTime : Int) (allocs : List Allocation) : List Entry :=
  submitAllocationsFrom create raw endTime 0 startTime allocs

/-- The `store.Entry` built for one batch allocation (the batch path
never sets a client name, so the zero value remains). -/
def mkBatchEntry (raw cid status : String) (st en : Int) (a : BatchAllocation) : Entry :=
  { clockifyID := cid
    projectID := a.projectID
    projectName := a.projectName
    clientName := ""
    description := a.description
    startTime := st
    endTime := en
    minutes := a.minutes
    status := status
    rawInput := raw }

/-- Loop of `BatchApp.submitAllocations`.  First component: the
entries inserted into the local store as the loop ran (persisting
happens before any later parse failure is discovered); second: the
message sent back — either the full entry list or the single error
that aborted the loop. -/
def batchSubmitFrom (create : CreateOracle) (dbPresent : Bool) (raw : String) :
    Nat → List BatchAllocation → List Entry × Except String (List Entry)
  | _, [] => ([], .ok [])
  | idx, a :: rest =>
    match parseBatchTime a.date a.startTime with
    | none => ([], .error ("parsing start time for " ++ a.date))
    | some st =>
      match parseBatchTime a.date a.endTime with
      | none => ([], .error ("parsing end time for " ++ a.date))
      | some en =>
        let outcome := create idx
        let status := match outcome with
          | some _ => "logged"
          | none => "failed"
        let e := mkBatchEntry raw ((outcome).getD "") status st en a
        let r := batchSubmitFrom create dbPresent raw (idx + 1) rest
        ((if dbPresent then [e] else []) ++ r.1,
         match r.2 with
         | .ok es => .ok (e :: es)
         | .error msg => .error msg)

/-- `BatchApp.submitAllocations`. -/
def batchSubmitAllocations (create : CreateOracle) (dbPresent : Bool)
    (raw : String) (allocs : List BatchAllocation) :
    List Entry × Except String (List Entry) :=
  batchSubmitFrom create dbPresent raw 0 allocs

/-- Both time strings of a batch allocation parse. -/
def allocTimesParse (a : BatchAllocation) : Bool :=
  (parseBatchTime a.date a.startTime).isSome && (parseBatchTime a.date a.endTime).isSome

/-! ## Messages and commands

`tea.Msg` is an open union; the constructors below cover every message
the two apps inspect (`tea.KeyMsg` by its `String()`, window sizes,
the AI/submit completion messages, the streaming messages and the
1-second tick), plus `widget` for any other message (spinner frames
and the like), which both apps hand to the state-specific handler.
`tea.Cmd` values are scheduled asynchronous tasks; they are modelled
as descriptions.  The execution-context shape each AI task is bound to
is recorded on its command. -/

/-- Shape of the `context.Context` an AI call runs under. -/
inductive CtxBound where
  | cancelOnly
  | timeoutSeconds (seconds : Nat)
deriving DecidableEq, Repr

/-- `App.startAI` builds its context with `context.WithCancel`
(app.go:319): cancellable, no deadline. -/
def startAIContext : CtxBound := .cancelOnly

/-- Idle ceiling handed to `idleTimeout` in `App.startAI`
(app.go:322): `2*time.Minute`. -/
def startAIIdleLimitSeconds : Nat := 120

/-- `BatchApp.queryAI` builds its context with
`context.WithTimeout(…, 120*time.Second)`. -/
def queryAIContext : CtxBound := .timeoutSeconds 120

inductive Msg where
  | key (k : String)
  | windowSize (w h : Int)
  | aiResponse (suggestion : Option Suggestion) (err : Option String)
  | submitDone (entries : List Entry) (err : Option String)
  | thinking (text : String)
  | thinkingDone
  | tick
  | batchAIResponse (suggestion : Option BatchSuggestion) (err : Option String)
  | batchSubmitDone (entries : List Entry) (err : Option String)
  | widget (tag : Nat)

inductive Cmd where
  | none
  | quit
  | seq (cmds : List Cmd)
  | spinnerTick
  | focus
  | startAI (ctx : CtxBound) (idleLimitSeconds : Nat) (description : String)
  | readThinking
  | tick
  | submit (allocations : List Allocation)
  | batchQueryAI (ctx : CtxBound) (description : String)
  | batchSubmit (allocations : List BatchAllocation)

/-- Behaviour of the external bubbles text widgets (`textarea.Model`,
`textinput.Model`): how a key press transforms the buffered text.
They live outside this repository, so theorems quantify over them. -/
structure Ext where
  textareaUpdate : String → String → String
  textInputUpdate : String → String → String

/-! ## Allocation editor, single-interval (`editModel`) -/

inductive EditField where
  | project
  | minutes
  | description
deriving DecidableEq, Repr

/-- `(m.field + 1) % 3`. -/
def EditField.next : EditField → EditField
  | .project => .minutes
  | .minutes => .description
  | .description => .project

structure EditModel where
  allocations : List Allocation
  projects : List Project
  cursor : Int
  field : EditField
  textValue : String
  editing : Bool
  filtered : List Project

/-- `newEditModel`: fresh text input (empty value), zero-valued
cursor, field and flags. -/
def newEditModel (allocations : List Allocation) (projects : List Project) : EditModel :=
  { allocations := allocations
    projects := projects
    cursor := 0
    field := .project
    textValue := ""
    editing := false
    filtered := [] }

def Allocation.dflt : Allocation := ⟨"", "", "", 0, "", 0.0⟩

/-- `m.allocations[m.cursor]`.  Go would panic out of range; every
reachable state keeps the cursor in range (see the cursor-invariant
theorem), so the default is never observed. -/
def EditModel.curAlloc (m : EditModel) : Allocation :=
  m.allocations.getD m.cursor.toNat Allocation.dflt

/-- The project-field fuzzy filter run on every keystroke:
`strings.Contains(strings.ToLower(p.Name), strings.ToLower(query))`. -/
def filterProjects (projects : List Project) (query : String) : List Project :=
  projects.filter (fun p => goContains (goToLower p.name) (goToLower query))

/-- `editModel.updateNavigating`. -/
def EditModel.updateNavigating (m : EditModel) (msg : Msg) : EditModel × Cmd :=
  match msg with
  | .key k =>
    if k = "up" ∨ k = "k" then
      ({m with cursor := if m.cursor > 0 then m.cursor - 1 else m.cursor}, .none)
    else if k = "down" ∨ k = "j" then
      ({m with cursor :=
          if m.cursor < (m.allocations.length : Int) - 1 then m.cursor + 1 else m.cursor}, .none)
    else if k = "tab" then
      ({m with field := m.field.next}, .none)
    else if k = "enter" then
      match m.field with
      | .project =>
        ({m with editing := true, textValue := "", filtered := m.projects}, .focus)
      | .minutes =>
        ({m with editing := true, textValue := toString m.curAlloc.minutes}, .focus)
      | .description =>
        ({m with editing := true, textValue := m.curAlloc.description}, .focus)
    else (m, .none)
  | _ => (m, .none)

/-- `editModel.applyEdit`: commit the live field into the allocation
under the cursor; invalid buffers are silently discarded. -/
def EditModel.applyEdit (m : EditModel) : EditModel :=
  match m.field with
  | .project =>
    match m.filtered with
    | [] => m
    | p :: _ =>
      {m with allocations := (m.allocations.set m.cursor.toNat
          ({m.curAlloc with projectID := p.id, projectName := p.name}))}
  | .minutes =>
    match parseGoInt m.textValue with
    | some v =>
      if v > 0 then
        {m with allocations := (m.allocations.set m.cursor.toNat {m.curAlloc with minutes := v})}
      else m
    | none => m
  | .description =>
    if m.textValue ≠ "" then
      {m with allocations :=
        m.allocations.set m.cursor.toNat {m.curAlloc with description := m.textValue}}
    else m

/-- `editModel.updateEditing`: enter commits and leaves editing, esc
discards and leaves editing, any other message feeds the text input
and (for the project field) re-runs the fuzzy filter. -/
def EditModel.updateEditing (ext : Ext) (m : EditModel) (msg : Msg) : EditModel × Cmd :=
  match msg with
  | .key k =>
    if k = "enter" then ({m.applyEdit with editing := false}, .none)
    else if k = "esc" then ({m with editing := false}, .none)
    else
      let v := ext.textInputUpdate m.textValue k
      if m.field = .project then
        ({m with textValue := v, filtered := filterProjects m.projects v}, .none)
      else
        ({m with textValue := v}, .none)
  | _ =>
    if m.field = .project then
      ({m with filtered := filterProjects m.projects m.textValue}, .none)
    else
      (m, .none)

/-- `editModel.Update`. -/
def EditModel.update (ext : Ext) (m : EditModel) (msg : Msg) : EditModel × Cmd :=
  if m.editing then m.updateEditing ext msg else m.updateNavigating msg

/-! ## Suggestion reviewer (`suggestionsModel`, `batchSuggestionsModel`)

`View` renders to a styled string; the embedding renders to a
structured descriptor carrying which branch was taken, what data that
branch displays and which actions its help line offers.  The batch
else-branch lays allocations out grouped by date; the descriptor keeps
the flat allocation list and cursor (the grouping is presentation
within the same branch). -/

structure SuggestionsModel where
  suggestion : Suggestion
  cursor : Int

def newSuggestionsModel (s : Suggestion) : SuggestionsModel :=
  { suggestion := s, cursor := 0 }

inductive SuggestionRender where
  | clarificationNeeded (text : String) (actions : List String)
  | allocationList (allocations : List Allocation) (cursor : Int) (actions : List String)
deriving Repr

/-- `suggestionsModel.View`: a non-empty clarification short-circuits
to the clarification screen whose help offers retry and skip only;
otherwise the allocation list with accept/edit/retry/skip. -/
def SuggestionsModel.view (m : SuggestionsModel) : SuggestionRender :=
  if m.suggestion.clarification ≠ "" then
    .clarificationNeeded m.suggestion.clarification ["r", "s"]
  else
    .allocationList m.suggestion.allocations m.cursor ["a", "e", "r", "s"]

structure BatchSuggestionsModel where
  suggestion : BatchSuggestion
  cursor : Int

def newBatchSuggestionsModel (s : BatchSuggestion) : BatchSuggestionsModel :=
  { suggestion := s, cursor := 0 }

inductive BatchSuggestionRender where
  | clarificationNeeded (text : String) (actions : List String)
  | allocationList (allocations : List BatchAllocation) (cursor : Int) (actions : List String)
deriving Repr

/-- `batchSuggestionsModel.View`. -/
def BatchSuggestionsModel.view (m : BatchSuggestionsModel) : BatchSuggestionRender :=
  if m.suggestion.clarification ≠ "" then
    .clarificationNeeded m.suggestion.clarification ["r", "s"]
  else
    .allocationList m.suggestion.allocations m.cursor ["a", "e", "r", "s"]

/-! ## Input model (`inputModel`) -/

structure InputModel where
  value : String
  timeInfo : String
  width : Int
  height : Int
  lastInput : String
  loadedLastMsg : Bool

def newInputModel (timeInfo : String) : InputModel :=
  { value := ""
    timeInfo := timeInfo
    width := 80
    height := 20
    lastInput := ""
    loadedLastMsg := false }

/-- `inputModel.Update`: window sizes resize, ctrl+l recalls the last
description when one exists, anything else feeds the textarea. -/
def InputModel.update (ext : Ext) (m : InputModel) (msg : Msg) : InputModel :=
  match msg with
  | .windowSize w h => {m with width := w, height := h}
  | .key k =>
    if k = "ctrl+l" ∧ m.lastInput ≠ "" then
      {m with value := m.lastInput, loadedLastMsg := true}
    else
      {m with value := ext.textareaUpdate m.value k}
  | _ => m

/-! ## Single-interval review state machine (`App`) -/

inductive ViewState where
  | input
  | loading
  | suggestion
  | edit
  | confirmation
deriving DecidableEq, Repr

structure App where
  state : ViewState
  input : InputModel
  suggestions : SuggestionsModel
  edit : EditModel
  result : Option Result
  errMsg : String
  startTime : Int
  endTime : Int
  projects : List Project
  thinkingText : String
  termWidth : Int
  termHeight : Int

/-- `NewApp` (spinner, viewport, provider handles and the interval
value fed only to the AI prompt are not part of the reviewed state). -/
def newApp (startTime endTime : Int) (projects : List Project)
    (timeInfo lastInput : String) : App :=
  { state := .input
    input := {newInputModel timeInfo with lastInput := lastInput}
    suggestions := ⟨⟨[], ""⟩, 0⟩
    edit := newEditModel [] projects
    result := none
    errMsg := ""
    startTime := startTime
    endTime := endTime
    projects := projects
    thinkingText := ""
    termWidth := 0
    termHeight := 0 }

/-- `App.updateInput`: enter with non-empty text starts the loading
phase — resetting the transcript and scheduling the spinner tick, the
AI task (cancellable context, 2-minute idle watchdog), the first
chunk read and the elapsed-time tick; everything else feeds the
textarea. -/
def App.updateInput (ext : Ext) (a : App) (msg : Msg) : App × Cmd :=
  match msg with
  | .key "enter" =>
    if a.input.value ≠ "" then
      ({a with state := .loading, thinkingText := ""},
       .seq [.spinnerTick,
             .startAI startAIContext startAIIdleLimitSeconds a.input.value,
             .readThinking, .tick])
    else ({a with input := a.input.update ext (.key "enter")}, .none)
  | _ => ({a with input := a.input.update ext msg}, .none)

/-- `App.updateLoading`: only the external spinner and viewport
widgets consume messages here. -/
def App.updateLoading (a : App) (_msg : Msg) : App × Cmd := (a, .none)

/-- `App.updateSuggestion`. -/
def App.updateSuggestion (a : App) (msg : Msg) : App × Cmd :=
  match msg with
  | .key k =>
    if k = "a" then
      (a, .submit a.suggestions.suggestion.allocations)
    else if k = "e" then
      ({a with state := .edit
               edit := newEditModel a.suggestions.suggestion.allocations a.projects}, .none)
    else if k = "r" then
      ({a with state := .input
               input := {newInputModel a.input.timeInfo with
                           width := a.input.width, height := a.input.height}}, .focus)
    else if k = "s" then
      ({a with result := some ⟨true, []⟩}, .quit)
    else if k = "up" ∨ k = "k" then
      ({a with suggestions := {a.suggestions with cursor :=
          (if a.suggestions.cursor > 0 then a.suggestions.cursor - 1
           else a.suggestions.cursor)}}, .none)
    else if k = "down" ∨ k = "j" then
      ({a with suggestions := {a.suggestions with cursor :=
          (if a.suggestions.cursor <
              (a.suggestions.suggestion.allocations.length : Int) - 1
           then a.suggestions.cursor + 1
           else a.suggestions.cursor)}}, .none)
    else (a, .none)
  | _ => (a, .none)

/-- `App.updateEdit`: escape while not mid-field-edit copies the
editor's list back over the suggestion and returns to review;
everything else goes to the editor. -/
def App.updateEdit (ext : Ext) (a : App) (msg : Msg) : App × Cmd :=
  match msg with
  | .key "esc" =>
    if a.edit.editing = false then
      ({a with state := .suggestion
               suggestions := {a.suggestions with suggestion :=
                 {a.suggestions.suggestion with allocations := a.edit.allocations}}}, .none)
    else
      let r := a.edit.update ext (.key "esc")
      ({a with edit := r.1}, r.2)
  | _ =>
    let r := a.edit.update ext msg
    ({a with edit := r.1}, r.2)

/-- `App.updateConfirmation`: any key exits. -/
def App.updateConfirmation (a : App) (msg : Msg) : App × Cmd :=
  match msg with
  | .key _ => (a, .quit)
  | _ => (a, .none)

/-- `App.handleAIResponse`. -/
def App.handleAIResponse (a : App) (suggestion : Option Suggestion)
    (err : Option String) : App × Cmd :=
  match err with
  | some e => ({a with state := .confirmation, errMsg := e}, .none)
  | none =>
    ({a with suggestions := newSuggestionsModel (suggestion.getD ⟨[], ""⟩)
             state := .suggestion}, .none)

/-- `App.handleSubmit`. -/
def App.handleSubmit (a : App) (entries : List Entry)
    (err : Option String) : App × Cmd :=
  match err with
  | some e => ({a with state := .confirmation, errMsg := e}, .none)
  | none =>
    ({a with result := some ⟨false, entries⟩, state := .confirmation}, .none)

/-- The state-specific dispatch at the bottom of `App.Update`. -/
def App.dispatch (ext : Ext) (a : App) (msg : Msg) : App × Cmd :=
  match a.state with
  | .input => a.updateInput ext msg
  | .loading => a.updateLoading msg
  | .suggestion => a.updateSuggestion msg
  | .edit => a.updateEdit ext msg
  | .confirmation => a.updateConfirmation msg

/-- `App.Update`: window sizes first, then the message-type switch —
where ctrl+c yields the skipped terminal result before any
state-specific dispatch — then dispatch on the view state. -/
def App.update (ext : Ext) (a : App) (msg : Msg) : App × Cmd :=
  match msg with
  | .windowSize w h =>
    ({a with termWidth := w, termHeight := h
             input := a.input.update ext (.windowSize w h)}, .none)
  | .key k =>
    if k = "ctrl+c" then ({a with result := some ⟨true, []⟩}, .quit)
    else a.dispatch ext (.key k)
  | .aiResponse s e => a.handleAIResponse s e
  | .submitDone es e => a.handleSubmit es e
  | .thinking t => ({a with thinkingText := a.thinkingText ++ t}, .readThinking)
  | .thinkingDone => (a, .none)
  | .tick => if a.state = .loading then (a, .tick) else (a, .none)
  | m => a.dispatch ext m

/-! ## Allocation editor, batch (`batchEditModel`): five fields
(project, minutes, description, start time, end time), cycled with
`(m.field + 1) % 5`. -/

inductive BatchEditField where
  | project
  | minutes
  | description
  | startTime
  | endTime
deriving DecidableEq, Repr

def BatchEditField.next : BatchEditField → BatchEditField
  | .project => .minutes
  | .minutes => .description
  | .description => .startTime
  | .startTime => .endTime
  | .endTime => .project

structure BatchEditModel where
  allocations : List BatchAllocation
  projects : List Project
  cursor : Int
  field : BatchEditField
  textValue : String
  editing : Bool
  filtered : List Project

def newBatchEditModel (allocations : List BatchAllocation)
    (projects : List Project) : BatchEditModel :=
  { allocations := allocations
    projects := projects
    cursor := 0
    field := .project
    textValue := ""
    editing := false
    filtered := [] }

def BatchAllocation.dflt : BatchAllocation := ⟨"", "", "", "", "", "", 0, "", 0.0⟩

def BatchEditModel.curAlloc (m : BatchEditModel) : BatchAllocation :=
  m.allocations.getD m.cursor.toNat BatchAllocation.dflt

/-- `batchEditModel.updateNavigating`. -/
def BatchEditModel.updateNavigating (m : BatchEditModel) (msg : Msg) :
    BatchEditModel × Cmd :=
  match msg with
  | .key k =>
    if k = "up" ∨ k = "k" then
      ({m with cursor := if m.cursor > 0 then m.cursor - 1 else m.cursor}, .none)
    else if k = "down" ∨ k = "j" then
      ({m with cursor :=
          if m.cursor < (m.allocations.length : Int) - 1 then m.cursor + 1 else m.cursor}, .none)
    else if k = "tab" then
      ({m with field := m.field.next}, .none)
    else if k = "enter" then
      match m.field with
      | .project =>
        ({m with editing := true, textValue := "", filtered := m.projects}, .focus)
      | .minutes =>
        ({m with editing := true, textValue := toString m.curAlloc.minutes}, .focus)
      | .description =>
        ({m with editing := true, textValue := m.curAlloc.description}, .focus)
      | .startTime =>
        ({m with editing := true, textValue := m.curAlloc.startTime}, .focus)
      | .endTime =>
        ({m with editing := true, textValue := m.curAlloc.endTime}, .focus)
    else (m, .none)
  | _ => (m, .none)

/-- `batchEditModel.applyEdit`. -/
def BatchEditModel.applyEdit (m : BatchEditModel) : BatchEditModel :=
  match m.field with
  | .project =>
    match m.filtered with
    | [] => m
    | p :: _ =>
      {m with allocations := (m.allocations.set m.cursor.toNat
          ({m.curAlloc with projectID := p.id, projectName := p.name}))}
  | .minutes =>
    match parseGoInt m.textValue with
    | some v =>
      if v > 0 then
        {m with allocations := (m.allocations.set m.cursor.toNat {m.curAlloc with minutes := v})}
      else m
    | none => m
  | .description =>
    if m.textValue ≠ "" then
      {m with allocations := (m.allocations.set m.cursor.toNat
          ({m.curAlloc with description := m.textValue}))}
    else m
  | .startTime =>
    if m.textValue ≠ "" then
      {m with allocations := (m.allocations.set m.cursor.toNat
          ({m.curAlloc with startTime := m.textValue}))}
    else m
  | .endTime =>
    if m.textValue ≠ "" then
      {m with allocations := (m.allocations.set m.cursor.toNat
          ({m.curAlloc with endTime := m.textValue}))}
    else m

/-- `batchEditModel.updateEditing`. -/
def BatchEditModel.updateEditing (ext : Ext) (m : BatchEditModel) (msg : Msg) :
    BatchEditModel × Cmd :=
  match msg with
  | .key k =>
    if k = "enter" then ({m.applyEdit with editing := false}, .none)
    else if k = "esc" then ({m with editing := false}, .none)
    else
      let v := ext.textInputUpdate m.textValue k
      if m.field = .project then
        ({m with textValue := v, filtered := filterProjects m.projects v}, .none)
      else
        ({m with textValue := v}, .none)
  | _ =>
    if m.field = .project then
      ({m with filtered := filterProjects m.projects m.textValue}, .none)
    else
      (m, .none)

/-- `batchEditModel.Update`. -/
def BatchEditModel.update (ext : Ext) (m : BatchEditModel) (msg : Msg) :
    BatchEditModel × Cmd :=
  if m.editing then m.updateEditing ext msg else m.updateNavigating msg

/-! ## Batch review state machine (`BatchApp`) -/

structure BatchApp where
  state : ViewState
  input : InputModel
  suggestions : BatchSuggestionsModel
  edit : BatchEditModel
  result : Option Result
  errMsg : String
  projects : List Project

/-- `NewBatchApp` (day slots feed only the AI prompt and the
confirmation summary). -/
def newBatchApp (projects : List Project) (timeInfo : String) : BatchApp :=
  { state := .input
    input := newInputModel timeInfo
    suggestions := ⟨⟨[], ""⟩, 0⟩
    edit := newBatchEditModel [] projects
    result := none
    errMsg := ""
    projects := projects }

/-- `BatchApp.updateInput`: enter with non-empty text starts the
loading phase, scheduling the spinner tick and the batch AI task
(120-second timeout context). -/
def BatchApp.updateInput (ext : Ext) (a : BatchApp) (msg : Msg) : BatchApp × Cmd :=
  match msg with
  | .key "enter" =>
    if a.input.value ≠ "" then
      ({a with state := .loading},
       .seq [.spinnerTick, .batchQueryAI queryAIContext a.input.value])
    else ({a with input := a.input.update ext (.key "enter")}, .none)
  | _ => ({a with input := a.input.update ext msg}, .none)

def BatchApp.updateLoading (a : BatchApp) (_msg : Msg) : BatchApp × Cmd := (a, .none)

/-- `BatchApp.updateSuggestion`. -/
def BatchApp.updateSuggestion (a : BatchApp) (msg : Msg) : BatchApp × Cmd :=
  match msg with
  | .key k =>
    if k = "a" then
      (a, .batchSubmit a.suggestions.suggestion.allocations)
    else if k = "e" then
      ({a with state := .edit
               edit := newBatchEditModel a.suggestions.suggestion.allocations a.projects}, .none)
    else if k = "r" then
      ({a with state := .input
               input := {newInputModel a.input.timeInfo with
                           width := a.input.width, height := a.input.height}}, .focus)
    else if k = "s" then
      ({a with result := some ⟨true, []⟩}, .quit)
    else if k = "up" ∨ k = "k" then
      ({a with suggestions := {a.suggestions with cursor :=
          (if a.suggestions.cursor > 0 then a.suggestions.cursor - 1
           else a.suggestions.cursor)}}, .none)
    else if k = "down" ∨ k = "j" then
      ({a with suggestions := {a.suggestions with cursor :=
          (if a.suggestions.cursor <
              (a.suggestions.suggestion.allocations.length : Int) - 1
           then a.suggestions.cursor + 1
           else a.suggestions.cursor)}}, .none)
    else (a, .none)
  | _ => (a, .none)

/-- `BatchApp.updateEdit`. -/
def BatchApp.updateEdit (ext : Ext) (a : BatchApp) (msg : Msg) : BatchApp × Cmd :=
  match msg with
  | .key "esc" =>
    if a.edit.editing = false then
      ({a with state := .suggestion
               suggestions := {a.suggestions with suggestion :=
                 {a.suggestions.suggestion with allocations := a.edit.allocations}}}, .none)
    else
      let r := a.edit.update ext (.key "esc")
      ({a with edit := r.1}, r.2)
  | _ =>
    let r := a.edit.update ext msg
    ({a with edit := r.1}, r.2)

def BatchApp.updateConfirmation (a : BatchApp) (msg : Msg) : BatchApp × Cmd :=
  match msg with
  | .key _ => (a, .quit)
  | _ => (a, .none)

def BatchApp.handleAIResponse (a : BatchApp) (suggestion : Option BatchSuggestion)
    (err : Option String) : BatchApp × Cmd :=
  match err with
  | some e => ({a with state := .confirmation, errMsg := e}, .none)
  | none =>
    ({a with suggestions := newBatchSuggestionsModel (suggestion.getD ⟨[], ""⟩)
             state := .suggestion}, .none)

def BatchApp.handleSubmit (a : BatchApp) (entries : List Entry)
    (err : Option String) : BatchApp × Cmd :=
  match err with
  | some e => ({a with state := .confirmation, errMsg := e}, .none)
  | none =>
    ({a with result := some ⟨false, entries⟩, state := .confirmation}, .none)

def BatchApp.dispatch (ext : Ext) (a : BatchApp) (msg : Msg) : BatchApp × Cmd :=
  match a.state with
  | .input => a.updateInput ext msg
  | .loading => a.updateLoading msg
  | .suggestion => a.updateSuggestion msg
  | .edit => a.updateEdit ext msg
  | .confirmation => a.updateConfirmation msg

/-- `BatchApp.Update`: identical shape to `App.Update`; ctrl+c is
checked before the state dispatch. -/
def BatchApp.update (ext : Ext) (a : BatchApp) (msg : Msg) : BatchApp × Cmd :=
  match msg with
  | .windowSize w h =>
    ({a with input := a.input.update ext (.windowSize w h)}, .none)
  | .key k =>
    if k = "ctrl+c" then ({a with result := some ⟨true, []⟩}, .quit)
    else a.dispatch ext (.key k)
  | .batchAIResponse s e => a.handleAIResponse s e
  | .batchSubmitDone es e => a.handleSubmit es e
  | m => a.dispatch ext m

/-! ## Idle-timeout watchdog (`idleTimeout`, app.go:368-394)

The watchdog goroutine holds `lastActivity` (a timestamp initialised
to the start and overwritten, under a mutex, by the `reset` closure
that the streaming `OnThinking` callback invokes on every chunk), then
loops: sleep 5 seconds, read `idle := now - lastActivity` under the
mutex, and if `idle >= idleLimit` cancel the shared context and stop.
The embedding is in idealised discrete time (seconds): `chunks` lists
the arrival times of streaming chunks, the poll wake-ups happen at
`5, 10, 15, …`, and `fuel` bounds how many polls are simulated. -/

/-- The value of `lastActivity` a poll at time `t` observes: the
latest chunk arrival not after `t`, or `0` (the start) if none. -/
def lastActivityAt (chunks : List Nat) (t : Nat) : Nat :=
  (chunks.filter (fun c => c ≤ t)).foldl max 0

/-- The polling loop from time `t`: the next wake-up is at `t + 5`;
cancel there if the observed idle time has reached `idleLimit`, else
keep polling.  Returns the cancellation time. -/
def idleTimeoutRun (chunks : List Nat) (idleLimit : Nat) :
    Nat → Nat → Option Nat
  | 0, _ => none
  | fuel + 1, t =>
    if lastActivityAt chunks (t + 5) + idleLimit ≤ t + 5 then some (t + 5)
    else idleTimeoutRun chunks idleLimit fuel (t + 5)

/-- `idleTimeout` observed from the call's start. -/
def idleTimeoutCancelTime (chunks : List Nat) (idleLimit fuel : Nat) : Option Nat :=
  idleTimeoutRun chunks idleLimit fuel 0

/-! ## Reviewer/editor slice sharing (`App.updateSuggestion` case "e",
`newEditModel`, `editModel.applyEdit`, `App.updateEdit`)

In Go, `newEditModel(a.suggestions.suggestion.Allocations, a.projects)`
stores the very slice the reviewer's suggestion holds: both views name
one backing array.  `applyEdit` assigns `m.allocations[m.cursor].…`,
writing that shared array in place, and no operation of the editor
ever reallocates it.  `EditArena` makes the single backing array
explicit and re-plays the editor update functions against it; both
views read it. -/

structure EditArena where
  arena : List Allocation
  projects : List Project
  cursor : Int
  field : EditField
  textValue : String
  editing : Bool
  filtered : List Project

/-- What `a.suggestions.suggestion.Allocations` dereferences to. -/
def reviewerAllocations (s : EditArena) : List Allocation := s.arena

/-- What `a.edit.allocations` dereferences to (the same array). -/
def editorAllocations (s : EditArena) : List Allocation := s.arena

/-- The "e" transition: the editor is constructed over the reviewer's
backing array (`newEditModel` zero state). -/
def enterEditArena (allocs : List Allocation) (projects : List Project) : EditArena :=
  { arena := allocs
    projects := projects
    cursor := 0
    field := .project
    textValue := ""
    editing := false
    filtered := [] }

def EditArena.curAlloc (s : EditArena) : Allocation :=
  s.arena.getD s.cursor.toNat Allocation.dflt

/-- `applyEdit` with its element assignments landing in the shared
backing array. -/
def EditArena.applyEdit (s : EditArena) : EditArena :=
  match s.field with
  | .project =>
    match s.filtered with
    | [] => s
    | p :: _ =>
      {s with arena := (s.arena.set s.cursor.toNat
          ({s.curAlloc with projectID := p.id, projectName := p.name}))}
  | .minutes =>
    match parseGoInt s.textValue with
    | some v =>
      if v > 0 then
        {s with arena := (s.arena.set s.cursor.toNat {s.curAlloc with minutes := v})}
      else s
    | none => s
  | .description =>
    if s.textValue ≠ "" then
      {s with arena := (s.arena.set s.cursor.toNat
          ({s.curAlloc with description := s.textValue}))}
    else s

/-- One editor update (`editModel.Update`) against the shared array. -/
def EditArena.step (ext : Ext) (s : EditArena) (msg : Msg) : EditArena :=
  if s.editing then
    match msg with
    | .key k =>
      if k = "enter" then {s.applyEdit with editing := false}
      else if k = "esc" then {s with editing := false}
      else
        let v := ext.textInputUpdate s.textValue k
        if s.field = .project then
          {s with textValue := v, filtered := filterProjects s.projects v}
        else
          {s with textValue := v}
    | _ =>
      if s.field = .project then
        {s with filtered := filterProjects s.projects s.textValue}
      else
        s
  else
    match msg with
    | .key k =>
      if k = "up" ∨ k = "k" then
        {s with cursor := if s.cursor > 0 then s.cursor - 1 else s.cursor}
      else if k = "down" ∨ k = "j" then
        {s with cursor :=
          if s.cursor < (s.arena.length : Int) - 1 then s.cursor + 1 else s.cursor}
      else if k = "tab" then
        {s with field := s.field.next}
      else if k = "enter" then
        match s.field with
        | .project => {s with editing := true, textValue := "", filtered := s.projects}
        | .minutes => {s with editing := true, textValue := toString s.curAlloc.minutes}
        | .description => {s with editing := true, textValue := s.curAlloc.description}
      else s
    | _ => s

/-- The "done editing" write-back from `App.updateEdit`:
`a.suggestions.suggestion.Allocations = a.edit.allocations` copies a
slice header naming the same backing array. -/
def EditArena.escWriteBack (s : EditArena) : EditArena :=
  {s with arena := editorAllocations s}

/-- The editor state a value-semantics reading builds from the shared
arena (used to compare the Go aliasing semantics with the moved-copy
semantics the spec describes). -/
def EditArena.toModel (s : EditArena) : EditModel :=
  { allocations := s.arena
    projects := s.projects
    cursor := s.cursor
    field := s.field
    textValue := s.textValue
    editing := s.editing
    filtered := s.filtered }

/-! ## Specification-side predicates and concrete sample inputs -/

/-- The status and external id a creation outcome maps to. -/
def statusOf : Option String → String
  | some _ => "logged"
  | none => "failed"

/-- The cursor invariant of the claims: never negative, pinned to `0`
on an empty list, strictly below the length otherwise. -/
def cursorInv (len : Nat) (c : Int) : Prop :=
  0 ≤ c ∧ (len = 0 → c = 0) ∧ (0 < len → c < (len : Int))

/-- While a project-field edit is live, the candidate list is the
fuzzy filter of the full project list by the current buffer. -/
def projectFilterInv (m : EditModel) : Prop :=
  m.editing = true → m.field = .project →
    m.filtered = filterProjects m.projects m.textValue

/-- The editor state after a sequence of messages delivered to a
fresh editor (`newEditModel`) — an edit session. -/
def editSession (ext : Ext) (allocs : List Allocation)
    (projects : List Project) (msgs : List Msg) : EditModel :=
  msgs.foldl (fun s msg => (EditModel.update ext s msg).1) (newEditModel allocs projects)

/-- The batch editor state after a sequence of messages delivered to a
fresh batch editor. -/
def batchEditSession (ext : Ext) (allocs : List BatchAllocation)
    (projects : List Project) (msgs : List Msg) : BatchEditModel :=
  msgs.foldl (fun s msg => (BatchEditModel.update ext s msg).1)
    (newBatchEditModel allocs projects)

/-- External text widgets that ignore input (used to instantiate
universally quantified collaborator behaviour). -/
def extIdentity : Ext := ⟨fun v _ => v, fun v _ => v⟩

/-- External text widgets that append each key to the buffer (ordinary
typing). -/
def extAppendKeys : Ext := ⟨fun v k => v ++ k, fun v k => v ++ k⟩

def sampleAllocation : Allocation :=
  ⟨"p1", "Alpha", "", 40, "dev work", 0.9⟩

def sampleAllocation2 : Allocation :=
  ⟨"p2", "Beta", "", 30, "review", 0.8⟩

def sampleProjects : List Project :=
  [⟨"p1", "Alpha", "Acme"⟩, ⟨"p2", "Beta", ""⟩]

def sampleBatchOk : BatchAllocation :=
  ⟨"2024-01-02", "09:00", "10:00", "p1", "Alpha", "", 60, "work", 0.9⟩

def sampleBatchBad : BatchAllocation :=
  ⟨"2024-01-02", "9am", "10:00", "p1", "Alpha", "", 30, "more", 0.5⟩

/-- An `App` sitting in the input view with text already typed. -/
def sampleApp : App :=
  let base := newApp 540 600 sampleProjects "09:00 - 10:00 (60 min)" ""
  {base with input := {base.input with value := "fixed auth bug"}}

/-- An `App` reviewing a two-allocation suggestion. -/
def sampleAppSuggestion : App :=
  {sampleApp with state := .suggestion
                  suggestions := ⟨⟨[sampleAllocation, sampleAllocation2], ""⟩, 0⟩}

/-- A `BatchApp` sitting in the input view with text already typed. -/
def sampleBatchApp : BatchApp :=
  let base := newBatchApp sampleProjects "Batch: 2024-01-01 to 2024-01-05"
  {base with input := {base.input with value := "project week"}}

/-! # Theorems -/

/-- C5: in every state of both the single-interval and the batch state
machine, a ctrl+c key press immediately yields the skipped terminal
result (`Result{Skipped: true}`) together with quit; the check sits in
the message-type switch, ahead of the state-specific dispatch, so it
overrides every other transition regardless of the current state and
of the external widget behaviour. -/
theorem c5_ctrlc_overrides_every_state (ext : Ext) (a : App) (b : BatchApp) :
    App.update ext a (.key "ctrl+c") = ({a with result := some ⟨true, []⟩}, .quit) ∧
    BatchApp.update ext b (.key "ctrl+c") = ({b with result := some ⟨true, []⟩}, .quit) :=
  ⟨rfl, rfl⟩

/-- C10: whenever the current suggestion carries a non-empty
clarification, the suggestion view of both apps renders the
clarification branch — showing the clarification text and offering
only the retry and skip actions — even when allocations are also
present (the branch never reads them). -/
theorem c10_clarification_preferred (m : SuggestionsModel) (mb : BatchSuggestionsModel)
    (h : m.suggestion.clarification ≠ "") (hb : mb.suggestion.clarification ≠ "") :
    m.view = .clarificationNeeded m.suggestion.clarification ["r", "s"] ∧
    mb.view = .clarificationNeeded mb.suggestion.clarification ["r", "s"] := by
  refine ⟨?_, ?_⟩
  · simp [SuggestionsModel.view, h]
  · simp [BatchSuggestionsModel.view, hb]

/-- C10 witness: a suggestion carrying both a clarification and an
allocation renders the clarification branch. -/
theorem c10_clarification_preferred_witness :
    (SuggestionsModel.view ⟨⟨[sampleAllocation], "which project?"⟩, 0⟩ =
      .clarificationNeeded "which project?" ["r", "s"]) ∧
    (BatchSuggestionsModel.view ⟨⟨[sampleBatchOk], "which day?"⟩, 0⟩ =
      .clarificationNeeded "which day?" ["r", "s"]) :=
  c10_clarification_preferred ⟨⟨[sampleAllocation], "which project?"⟩, 0⟩
    ⟨⟨[sampleBatchOk], "which day?"⟩, 0⟩ (by decide) (by decide)

/-- A field commit against the shared backing array agrees with the
value-semantics `applyEdit`. -/
theorem EditArena.applyEdit_toModel (s : EditArena) :
    s.applyEdit.toModel = s.toModel.applyEdit := by
  rcases s with ⟨arena, projects, cursor, field, textValue, editing, filtered⟩
  cases field with
  | project => cases filtered <;> rfl
  | minutes =>
    simp only [EditArena.applyEdit, EditModel.applyEdit, EditArena.toModel]
    split <;> first | rfl | (split_ifs <;> rfl)
  | description =>
    simp only [EditArena.applyEdit, EditModel.applyEdit, EditArena.toModel]
    split_ifs <;> rfl

/-- Each editor step against the shared backing array agrees with the
value-semantics editor update. -/
theorem EditArena.step_toModel (ext : Ext) (s : EditArena) (msg : Msg) :
    (EditArena.step ext s msg).toModel = (EditModel.update ext s.toModel msg).1 := by
  rcases s with ⟨arena, projects, cursor, field, textValue, editing, filtered⟩
  cases editing with
  | false =>
    cases msg with
    | key k =>
      simp only [EditArena.step, EditModel.update, EditArena.toModel,
        EditModel.updateNavigating, Bool.false_eq_true, if_false]
      split_ifs <;> try rfl
      cases field <;> rfl
    | windowSize w h => rfl
    | aiResponse s e => rfl
    | submitDone es e => rfl
    | thinking t => rfl
    | thinkingDone => rfl
    | tick => rfl
    | batchAIResponse s e => rfl
    | batchSubmitDone es e => rfl
    | widget t => rfl
  | true =>
    cases msg with
    | key k =>
      simp only [EditArena.step, EditModel.update, EditArena.toModel,
        EditModel.updateEditing, if_true]
      split_ifs <;> try rfl
      exact congrArg (fun m => ({m with editing := false} : EditModel))
        (EditArena.applyEdit_toModel ⟨arena, projects, cursor, field, textValue, true, filtered⟩)
    | windowSize w h =>
      simp only [EditArena.step, EditModel.update, EditArena.toModel,
        EditModel.updateEditing, if_true]
      split_ifs <;> rfl
    | aiResponse s e =>
      simp only [EditArena.step, EditModel.update, EditArena.toModel,
        EditModel.updateEditing, if_true]
      split_ifs <;> rfl
    | submitDone es e =>
      simp only [EditArena.step, EditModel.update, EditArena.toModel,
        EditModel.updateEditing, if_true]
      split_ifs <;> rfl
    | thinking t =>
      simp only [EditArena.step, EditModel.update, EditArena.toModel,
        EditModel.updateEditing, if_true]
      split_ifs <;> rfl
    | thinkingDone =>
      simp only [EditArena.step, EditModel.update, EditArena.toModel,
        EditModel.updateEditing, if_true]
      split_ifs <;> rfl
    | tick =>
      simp only [EditArena.step, EditModel.update, EditArena.toModel,
        EditModel.updateEditing, if_true]
      split_ifs <;> rfl
    | batchAIResponse s e =>
      simp only [EditArena.step, EditModel.update, EditArena.toModel,
        EditModel.updateEditing, if_true]
      split_ifs <;> rfl
    | batchSubmitDone es e =>
      simp only [EditArena.step, EditModel.update, EditArena.toModel,
        EditModel.updateEditing, if_true]
      split_ifs <;> rfl
    | widget t =>
      simp only [EditArena.step, EditModel.update, EditArena.toModel,
        EditModel.updateEditing, if_true]
      split_ifs <;> rfl

/-- Folded version of `EditArena.step_toModel`. -/
theorem EditArena.foldl_toModel (ext : Ext) (msgs : List Msg) :
    ∀ s : EditArena,
      (msgs.foldl (EditArena.step ext) s).toModel =
        msgs.foldl (fun m msg => (EditModel.update ext m msg).1) s.toModel := by
  induction msgs with
  | nil => intro s; rfl
  | cons msg rest ih =>
    intro s
    simp only [List.foldl_cons]
    rw [ih, EditArena.step_toModel]

/-- C6 (amended): in Go the editor is handed the reviewer's
allocation slice itself — one shared backing array, not a moved copy —
so at every point of an edit session the reviewer's list equals the
editor's working list (field commits are visible to the reviewer
immediately), and the "done editing" write-back of the editor's list
over the reviewer's changes nothing. -/
theorem c6_editor_aliases_reviewer (ext : Ext) (allocs : List Allocation)
    (projects : List Project) (msgs : List Msg) (s : EditArena) :
    reviewerAllocations s.escWriteBack = reviewerAllocations s ∧
    reviewerAllocations (msgs.foldl (EditArena.step ext) (enterEditArena allocs projects)) =
      (msgs.foldl (fun m msg => (EditModel.update ext m msg).1)
        (newEditModel allocs projects)).allocations := by
  refine ⟨rfl, ?_⟩
  have h := EditArena.foldl_toModel ext msgs (enterEditArena allocs projects)
  exact congrArg EditModel.allocations h

/-- C6 counterexample: with ordinary typing widgets, an edit session
that never performs the "done editing" transition — navigate to the
minutes field, enter, type "0" onto the seeded "40", commit with
enter — changes the list the reviewer's suggestion holds (its minutes
become 400), refuting that field commits inside the editor leave the
reviewer's list unchanged until the editor's list is merged back on
escape. -/
theorem c6_counterexample :
    (reviewerAllocations
      ([Msg.key "tab", Msg.key "enter", Msg.key "0", Msg.key "enter"].foldl
        (EditArena.step extAppendKeys)
        (enterEditArena [sampleAllocation] sampleProjects))).map Allocation.minutes ≠
    [sampleAllocation].map Allocation.minutes := by
  decide

/-- C7 (amended): both AI calls run as scheduled asynchronous tasks,
but only the batch call is bound to a context with a hard timeout
(120 seconds); the single-interval call's context is merely
cancellable, bounded only by the 2-minute idle watchdog. -/
theorem c7_context_shapes (ext : Ext) (a : App) (b : BatchApp)
    (ha : a.state = .input) (hv : a.input.value ≠ "")
    (hb : b.state = .input) (hbv : b.input.value ≠ "") :
    (App.update ext a (.key "enter")).2 =
      .seq [.spinnerTick,
            .startAI .cancelOnly startAIIdleLimitSeconds a.input.value,
            .readThinking, .tick] ∧
    (BatchApp.update ext b (.key "enter")).2 =
      .seq [.spinnerTick, .batchQueryAI (.timeoutSeconds 120) b.input.value] := by
  constructor
  · show (App.dispatch ext a (.key "enter")).2 = _
    rw [App.dispatch, ha]
    simp [App.updateInput, hv, startAIContext]
  · show (BatchApp.dispatch ext b (.key "enter")).2 = _
    rw [BatchApp.dispatch, hb]
    simp [BatchApp.updateInput, hbv, queryAIContext]

/-- C7 witness: the context shapes at concrete apps with typed
input. -/
theorem c7_context_shapes_witness :
    (App.update extIdentity sampleApp (.key "enter")).2 =
      .seq [.spinnerTick,
            .startAI .cancelOnly startAIIdleLimitSeconds sampleApp.input.value,
            .readThinking, .tick] ∧
    (BatchApp.update extIdentity sampleBatchApp (.key "enter")).2 =
      .seq [.spinnerTick, .batchQueryAI (.timeoutSeconds 120) sampleBatchApp.input.value] :=
  c7_context_shapes extIdentity sampleApp sampleBatchApp rfl (by decide) rfl (by decide)

/-- C7 counterexample: the claim's 60-second hard ceiling for the
single-interval mode does not exist — the context `App.startAI`
schedules for the AI task is `context.WithCancel`, carrying no
timeout at all. -/
theorem c7_counterexample :
    startAIContext ≠ CtxBound.timeoutSeconds 60 ∧
    (App.update extIdentity sampleApp (.key "enter")).2 =
      .seq [.spinnerTick,
            .startAI .cancelOnly 120 "fixed auth bug",
            .readThinking, .tick] := by
  exact ⟨by decide, rfl⟩

/-- A batch submission containing an allocation whose time strings do
not parse aborts at the first such allocation: the message sent back
is the single error (no entries), and the entries persisted into the
local store are exactly those for the allocations before the first
failure. -/
theorem batchSubmitFrom_parse_abort (create : CreateOracle) (dbp : Bool) (raw : String) :
    ∀ (allocs : List BatchAllocation) (idx : Nat),
      (∃ a ∈ allocs, allocTimesParse a = false) →
      (∃ e, (batchSubmitFrom create dbp raw idx allocs).2 = .error e) ∧
      (batchSubmitFrom create dbp raw idx allocs).1.length =
        (if dbp then allocs.findIdx (fun a => !allocTimesParse a) else 0) := by
  intro allocs
  induction allocs with
  | nil =>
    intro idx h
    rcases h with ⟨a, ha, _⟩
    cases ha
  | cons a rest ih =>
    intro idx h
    by_cases hp : allocTimesParse a = true
    · have hps : (parseBatchTime a.date a.startTime).isSome = true := by
        have := hp
        unfold allocTimesParse at this
        exact (Bool.and_eq_true_iff.mp this).1
      have hpe : (parseBatchTime a.date a.endTime).isSome = true := by
        have := hp
        unfold allocTimesParse at this
        exact (Bool.and_eq_true_iff.mp this).2
      obtain ⟨st, hst⟩ := Option.isSome_iff_exists.mp hps
      obtain ⟨en, hen⟩ := Option.isSome_iff_exists.mp hpe
      have hrest : ∃ b ∈ rest, allocTimesParse b = false := by
        rcases h with ⟨b, hb, hbf⟩
        rcases List.mem_cons.mp hb with rfl | hb'
        · rw [hp] at hbf; cases hbf
        · exact ⟨b, hb', hbf⟩
      obtain ⟨⟨e, herr⟩, hlen⟩ := ih (idx + 1) hrest
      constructor
      · refine ⟨e, ?_⟩
        simp only [batchSubmitFrom, hst, hen, herr]
      · simp only [batchSubmitFrom, hst, hen, List.length_append,
          List.findIdx_cons, hp, Bool.not_true, hlen]
        cases dbp
        · simp
        · simp
          omega
    · have hp' : allocTimesParse a = false := by
        cases hq : allocTimesParse a
        · rfl
        · exact absurd hq hp
      cases hst : parseBatchTime a.date a.startTime with
      | none =>
        constructor
        · exact ⟨"parsing start time for " ++ a.date, by
            simp only [batchSubmitFrom, hst]⟩
        · simp only [batchSubmitFrom, hst, List.length_nil,
            List.findIdx_cons, hp', Bool.not_false]
          cases dbp <;> simp
      | some st =>
        have hen : parseBatchTime a.date a.endTime = none := by
          unfold allocTimesParse at hp'
          rw [hst] at hp'
          simp only [Option.isSome_some, Bool.true_and] at hp'
          exact Option.not_isSome_iff_eq_none.mp (by simp [hp'])
        constructor
        · exact ⟨"parsing end time for " ++ a.date, by
            simp only [batchSubmitFrom, hst, hen]⟩
        · simp only [batchSubmitFrom, hst, hen, List.length_nil,
            List.findIdx_cons, hp', Bool.not_false]
          cases dbp <;> simp

/-- C1 (amended): if any batch allocation's startTime or endTime
fails to parse, the submission aborts at the first failing allocation
with a single error and the resulting message carries zero records —
but the records persisted locally are those for the allocations before
the first failure (they were already inserted, and their external
creation already attempted, when the abort happens), not zero. -/
theorem c1_parse_failure_aborts (create : CreateOracle) (dbp : Bool) (raw : String)
    (allocs : List BatchAllocation)
    (h : ∃ a ∈ allocs, allocTimesParse a = false) :
    (∃ e, (batchSubmitAllocations create dbp raw allocs).2 = .error e) ∧
    (batchSubmitAllocations create dbp raw allocs).1.length =
      (if dbp then allocs.findIdx (fun a => !allocTimesParse a) else 0) :=
  batchSubmitFrom_parse_abort create dbp raw allocs 0 h

/-- C1 witness: a well-formed allocation followed by one with an
unparsable start time — the submission errors and exactly the one
leading record is persisted. -/
theorem c1_parse_failure_aborts_witness :
    (∃ e, (batchSubmitAllocations (fun _ => some "cid") true "raw"
      [sampleBatchOk, sampleBatchBad]).2 = .error e) ∧
    (batchSubmitAllocations (fun _ => some "cid") true "raw"
      [sampleBatchOk, sampleBatchBad]).1.length =
      (if true then [sampleBatchOk, sampleBatchBad].findIdx (fun a => !allocTimesParse a) else 0) :=
  c1_parse_failure_aborts (fun _ => some "cid") true "raw" [sampleBatchOk, sampleBatchBad]
    ⟨sampleBatchBad, List.mem_cons_of_mem _ (List.mem_cons_self _ _), rfl⟩

/-- C1 counterexample: in that same run the batch submission does
fail with a single error, but one record (for the leading well-formed
allocation) has been persisted — not zero. -/
theorem c1_counterexample :
    (batchSubmitAllocations (fun _ => some "cid") true "raw"
      [sampleBatchOk, sampleBatchBad]).2 = .error "parsing start time for 2024-01-02" ∧
    (batchSubmitAllocations (fun _ => some "cid") true "raw"
      [sampleBatchOk, sampleBatchBad]).1.length = 1 ∧
    allocTimesParse sampleBatchOk = true :=
  ⟨rfl, rfl, rfl⟩

/-- The single-interval pipeline emits one entry per allocation. -/
theorem submitAllocationsFrom_length (create : CreateOracle) (raw : String) (endT : Int) :
    ∀ (allocs : List Allocation) (idx : Nat) (start : Int),
      (submitAllocationsFrom create raw endT idx start allocs).length = allocs.length := by
  intro allocs
  induction allocs with
  | nil => intro idx start; rfl
  | cons a rest ih =>
    intro idx start
    simp only [submitAllocationsFrom, List.length_cons, ih]

/-- Entry `i` of the single-interval pipeline copies allocation `i`'s
fields verbatim and records the `i`-th creation outcome. -/
theorem submitAllocationsFrom_getD (create : CreateOracle) (raw : String) (endT : Int) :
    ∀ (allocs : List Allocation) (idx : Nat) (start : Int) (i : Nat), i < allocs.length →
      ((submitAllocationsFrom create raw endT idx start allocs).getD i Entry.dflt).projectID =
        (allocs.getD i Allocation.dflt).projectID ∧
      ((submitAllocationsFrom create raw endT idx start allocs).getD i Entry.dflt).projectName =
        (allocs.getD i Allocation.dflt).projectName ∧
      ((submitAllocationsFrom create raw endT idx start allocs).getD i Entry.dflt).clientName =
        (allocs.getD i Allocation.dflt).clientName ∧
      ((submitAllocationsFrom create raw endT idx start allocs).getD i Entry.dflt).minutes =
        (allocs.getD i Allocation.dflt).minutes ∧
      ((submitAllocationsFrom create raw endT idx start allocs).getD i Entry.dflt).description =
        (allocs.getD i Allocation.dflt).description ∧
      ((submitAllocationsFrom create raw endT idx start allocs).getD i Entry.dflt).status =
        statusOf (create (idx + i)) ∧
      ((submitAllocationsFrom create raw endT idx start allocs).getD i Entry.dflt).clockifyID =
        (create (idx + i)).getD "" ∧
      ((submitAllocationsFrom create raw endT idx start allocs).getD i Entry.dflt).rawInput =
        raw := by
  intro allocs
  induction allocs with
  | nil => intro idx start i hi; cases hi
  | cons a rest ih =>
    intro idx start i hi
    cases i with
    | zero =>
      cases hc : create idx <;>
        simp [submitAllocationsFrom, hc, statusOf]
    | succ i =>
      have hi' : i < rest.length := by
        simpa [List.length_cons, Nat.succ_lt_succ_iff] using hi
      have hidx : idx + 1 + i = idx + (i + 1) := by omega
      have := ih (idx + 1)
        (if start + a.minutes > endT then endT else start + a.minutes) i hi'
      rw [hidx] at this
      simpa only [submitAllocationsFrom, List.getD_cons_succ] using this

/-- Time windows of the single-interval pipeline: the first entry
starts at the interval start, every entry ends at its start plus its
minutes clamped to the interval end, and each entry starts where the
previous one ended. -/
theorem submitAllocationsFrom_windows (create : CreateOracle) (raw : String) (endT : Int) :
    ∀ (allocs : List Allocation) (idx : Nat) (start : Int),
      (0 < allocs.length →
        ((submitAllocationsFrom create raw endT idx start allocs).getD 0 Entry.dflt).startTime =
          start) ∧
      (∀ i, i < allocs.length →
        ((submitAllocationsFrom create raw endT idx start allocs).getD i Entry.dflt).endTime =
          min (((submitAllocationsFrom create raw endT idx start allocs).getD i
            Entry.dflt).startTime + (allocs.getD i Allocation.dflt).minutes) endT) ∧
      (∀ i, i + 1 < allocs.length →
        ((submitAllocationsFrom create raw endT idx start allocs).getD (i + 1)
            Entry.dflt).startTime =
          ((submitAllocationsFrom create raw endT idx start allocs).getD i
            Entry.dflt).endTime) := by
  intro allocs
  induction allocs with
  | nil =>
    intro idx start
    refine ⟨fun h => absurd h (by simp), fun i hi => absurd hi (by simp), fun i hi =>
      absurd hi (by simp)⟩
  | cons a rest ih =>
    intro idx start
    refine ⟨fun _ => rfl, ?_, ?_⟩
    · intro i hi
      cases i with
      | zero =>
        simp only [submitAllocationsFrom, List.getD_cons_zero]
        show (if start + a.minutes > endT then endT else start + a.minutes) =
          min (start + a.minutes) endT
        rw [min_def]
        split_ifs <;> omega
      | succ i =>
        have hi' : i < rest.length := by
          simpa [List.length_cons, Nat.succ_lt_succ_iff] using hi
        have := (ih (idx + 1)
          (if start + a.minutes > endT then endT else start + a.minutes)).2.1 i hi'
        simpa only [submitAllocationsFrom, List.getD_cons_succ] using this
    · intro i hi
      cases i with
      | zero =>
        have hr : 0 < rest.length := by
          simpa [List.length_cons] using hi
        have := (ih (idx + 1)
          (if start + a.minutes > endT then endT else start + a.minutes)).1 hr
        simpa only [submitAllocationsFrom, List.getD_cons_succ, List.getD_cons_zero]
          using this
      | succ i =>
        have hi' : i + 1 < rest.length := by
          simpa [List.length_cons, Nat.succ_lt_succ_iff] using hi
        have := (ih (idx + 1)
          (if start + a.minutes > endT then endT else start + a.minutes)).2.2 i hi'
        simpa only [submitAllocationsFrom, List.getD_cons_succ] using this

/-- C2: accepting a suggestion submits exactly the current allocation
list, and for every interval and creation-outcome oracle the pipeline
produces exactly one persisted record per allocation, with project id,
project name, minutes and description copied verbatim, the first
window starting at the interval start, every window ending at its
start plus the allocation's minutes clamped to the interval end, and
each window starting where the previous one ended. -/
theorem c2_accept_roundtrip (ext : Ext) (a : App) (ha : a.state = .suggestion)
    (create : CreateOracle) (raw : String) (startT endT : Int)
    (allocs : List Allocation) :
    App.update ext a (.key "a") = (a, .submit a.suggestions.suggestion.allocations) ∧
    (submitAllocations create raw startT endT allocs).length = allocs.length ∧
    (∀ i, i < allocs.length →
      ((submitAllocations create raw startT endT allocs).getD i Entry.dflt).projectID =
        (allocs.getD i Allocation.dflt).projectID ∧
      ((submitAllocations create raw startT endT allocs).getD i Entry.dflt).projectName =
        (allocs.getD i Allocation.dflt).projectName ∧
      ((submitAllocations create raw startT endT allocs).getD i Entry.dflt).minutes =
        (allocs.getD i Allocation.dflt).minutes ∧
      ((submitAllocations create raw startT endT allocs).getD i Entry.dflt).description =
        (allocs.getD i Allocation.dflt).description) ∧
    (0 < allocs.length →
      ((submitAllocations create raw startT endT allocs).getD 0 Entry.dflt).startTime =
        startT) ∧
    (∀ i, i < allocs.length →
      ((submitAllocations create raw startT endT allocs).getD i Entry.dflt).endTime =
        min (((submitAllocations create raw startT endT allocs).getD i
          Entry.dflt).startTime + (allocs.getD i Allocation.dflt).minutes) endT) ∧
    (∀ i, i + 1 < allocs.length →
      ((submitAllocations create raw startT endT allocs).getD (i + 1)
          Entry.dflt).startTime =
        ((submitAllocations create raw startT endT allocs).getD i Entry.dflt).endTime) := by
  refine ⟨?_, ?_, ?_, ?_, ?_, ?_⟩
  · show App.dispatch ext a (.key "a") = _
    rw [App.dispatch, ha]
    rfl
  · exact submitAllocationsFrom_length create raw endT allocs 0 startT
  · intro i hi
    obtain ⟨h1, h2, _, h4, h5, _, _, _⟩ :=
      submitAllocationsFrom_getD create raw endT allocs 0 startT i hi
    exact ⟨h1, h2, h4, h5⟩
  · exact (submitAllocationsFrom_windows create raw endT allocs 0 startT).1
  · exact (submitAllocationsFrom_windows create raw endT allocs 0 startT).2.1
  · exact (submitAllocationsFrom_windows create raw endT allocs 0 startT).2.2

/-- C2 witness: a two-allocation suggestion accepted over the
100-to-160 interval — the accept key submits both allocations and the
resulting records walk forward 100→140→160 (the second clamped),
fields verbatim. -/
theorem c2_accept_roundtrip_witness :
    App.update extIdentity sampleAppSuggestion (.key "a") =
      (sampleAppSuggestion, .submit [sampleAllocation, sampleAllocation2]) ∧
    (submitAllocations (fun _ => some "id") "r" 100 160
      [sampleAllocation, sampleAllocation2]).length = 2 ∧
    ((submitAllocations (fun _ => some "id") "r" 100 160
      [sampleAllocation, sampleAllocation2]).getD 0 Entry.dflt).startTime = 100 ∧
    ((submitAllocations (fun _ => some "id") "r" 100 160
      [sampleAllocation, sampleAllocation2]).getD 1 Entry.dflt).startTime =
      ((submitAllocations (fun _ => some "id") "r" 100 160
        [sampleAllocation, sampleAllocation2]).getD 0 Entry.dflt).endTime ∧
    ((submitAllocations (fun _ => some "id") "r" 100 160
      [sampleAllocation, sampleAllocation2]).getD 1 Entry.dflt).minutes =
      sampleAllocation2.minutes := by
  have h := c2_accept_roundtrip extIdentity sampleAppSuggestion rfl
    (fun _ => some "id") "r" 100 160 [sampleAllocation, sampleAllocation2]
  exact ⟨h.1, h.2.1, h.2.2.2.1 (by decide), h.2.2.2.2.2 0 (by decide),
    (h.2.2.1 1 (by decide)).2.2.1⟩

/-- When every batch allocation's times parse, the batch pipeline
returns one entry per allocation, entry `i` recording the `i`-th
creation outcome as its status and external id. -/
theorem batchSubmitFrom_all_ok (create : CreateOracle) (dbp : Bool) (raw : String) :
    ∀ (allocs : List BatchAllocation) (idx : Nat),
      (∀ b ∈ allocs, allocTimesParse b = true) →
      ∃ es, (batchSubmitFrom create dbp raw idx allocs).2 = .ok es ∧
        es.length = allocs.length ∧
        (∀ i, i < allocs.length →
          (es.getD i Entry.dflt).status = statusOf (create (idx + i)) ∧
          (es.getD i Entry.dflt).clockifyID = (create (idx + i)).getD "") := by
  intro allocs
  induction allocs with
  | nil =>
    intro idx _
    exact ⟨[], rfl, rfl, fun i hi => absurd hi (by simp)⟩
  | cons a rest ih =>
    intro idx h
    have hp := h a (List.mem_cons_self a rest)
    have hps : (parseBatchTime a.date a.startTime).isSome = true := by
      unfold allocTimesParse at hp
      exact (Bool.and_eq_true_iff.mp hp).1
    have hpe : (parseBatchTime a.date a.endTime).isSome = true := by
      unfold allocTimesParse at hp
      exact (Bool.and_eq_true_iff.mp hp).2
    obtain ⟨st, hst⟩ := Option.isSome_iff_exists.mp hps
    obtain ⟨en, hen⟩ := Option.isSome_iff_exists.mp hpe
    obtain ⟨es, hok, hlen, hstat⟩ :=
      ih (idx + 1) (fun b hb => h b (List.mem_cons_of_mem a hb))
    refine ⟨mkBatchEntry raw ((create idx).getD "")
      (match create idx with | some _ => "logged" | none => "failed") st en a :: es,
      ?_, by simpa using hlen, ?_⟩
    · simp only [batchSubmitFrom, hst, hen, hok]
    · intro i hi
      cases i with
      | zero =>
        simp only [Nat.add_zero, List.getD_cons_zero]
        constructor
        · cases create idx <;> rfl
        · rfl
      | succ i =>
        have hi' : i < rest.length := by
          simpa [List.length_cons, Nat.succ_lt_succ_iff] using hi
        have hidx : idx + 1 + i = idx + (i + 1) := by omega
        have := hstat i hi'
        rw [hidx] at this
        simpa only [List.getD_cons_succ] using this

/-- C3: for each allocation in submission order, an external-creation
failure leaves the local record persisted with status "failed" and an
empty external id, a success with status "logged" and the returned
id; processing always reaches every allocation, and neither pipeline
aborts because one creation call failed — the single-interval pipeline
unconditionally, the batch pipeline whenever its time strings parse. -/
theorem c3_creation_failure_is_per_item (create : CreateOracle) (raw : String)
    (startT endT : Int) (allocs : List Allocation) (dbp : Bool)
    (ballocs : List BatchAllocation)
    (hb : ∀ b ∈ ballocs, allocTimesParse b = true) :
    ((submitAllocations create raw startT endT allocs).length = allocs.length ∧
     ∀ i, i < allocs.length →
       ((submitAllocations create raw startT endT allocs).getD i Entry.dflt).status =
         statusOf (create i) ∧
       ((submitAllocations create raw startT endT allocs).getD i Entry.dflt).clockifyID =
         (create i).getD "") ∧
    (∃ es, (batchSubmitAllocations create dbp raw ballocs).2 = .ok es ∧
      es.length = ballocs.length ∧
      ∀ i, i < ballocs.length →
        (es.getD i Entry.dflt).status = statusOf (create i) ∧
        (es.getD i Entry.dflt).clockifyID = (create i).getD "") := by
  constructor
  · constructor
    · exact submitAllocationsFrom_length create raw endT allocs 0 startT
    · intro i hi
      obtain ⟨_, _, _, _, _, h6, h7, _⟩ :=
        submitAllocationsFrom_getD create raw endT allocs 0 startT i hi
      rw [Nat.zero_add] at h6 h7
      exact ⟨h6, h7⟩
  · obtain ⟨es, hok, hlen, hstat⟩ := batchSubmitFrom_all_ok create dbp raw ballocs 0 hb
    refine ⟨es, hok, hlen, fun i hi => ?_⟩
    have := hstat i hi
    rwa [Nat.zero_add] at this

/-- C3 witness: three batch allocations whose second creation call
fails — all three records exist with statuses logged, failed, logged;
same for the single-interval pipeline. -/
theorem c3_creation_failure_is_per_item_witness :
    ((submitAllocations (fun i => if i = 1 then none else some "x") "r" 100 300
      [sampleAllocation, sampleAllocation2, sampleAllocation]).length = 3 ∧
     ((submitAllocations (fun i => if i = 1 then none else some "x") "r" 100 300
      [sampleAllocation, sampleAllocation2, sampleAllocation]).getD 1 Entry.dflt).status =
       statusOf (if (1 : Nat) = 1 then none else some "x")) ∧
    (∃ es, (batchSubmitAllocations (fun i => if i = 1 then none else some "x") true "r"
      [sampleBatchOk, sampleBatchOk, sampleBatchOk]).2 = .ok es ∧
      es.length = 3 ∧
      (es.getD 0 Entry.dflt).status = statusOf (if (0 : Nat) = 1 then none else some "x") ∧
      (es.getD 1 Entry.dflt).status = statusOf (if (1 : Nat) = 1 then none else some "x") ∧
      (es.getD 2 Entry.dflt).status = statusOf (if (2 : Nat) = 1 then none else some "x")) := by
  have h := c3_creation_failure_is_per_item (fun i => if i = 1 then none else some "x") "r"
    100 300 [sampleAllocation, sampleAllocation2, sampleAllocation] true
    [sampleBatchOk, sampleBatchOk, sampleBatchOk] (by decide)
  obtain ⟨⟨hlen, hstat⟩, ⟨es, hok, hblen, hbstat⟩⟩ := h
  refine ⟨⟨hlen, (hstat 1 (by decide)).1⟩, es, hok, hblen,
    (hbstat 0 (by decide)).1, (hbstat 1 (by decide)).1, (hbstat 2 (by decide)).1⟩

/-- The empty pattern is a substring of every string (matching Go's
`strings.Contains(s, "")`). -/
theorem goContains_empty_query (s : String) : goContains s "" = true := by
  show hasSubstrChars [] s.toList = true
  induction s.toList with
  | nil => rfl
  | cons c cs ih => simp [hasSubstrChars, startsWithChars]

/-- Filtering by the empty query keeps the whole project list. -/
theorem filterProjects_empty_query (projects : List Project) :
    filterProjects projects "" = projects := by
  unfold filterProjects
  refine List.filter_eq_self.mpr fun p _ => ?_
  show goContains (goToLower p.name) (goToLower "") = true
  exact goContains_empty_query _

/-- While a project-field edit is live, every editor update keeps the
candidate list equal to the fuzzy filter of the full project list by
the current buffer. -/
theorem projectFilterInv_step (ext : Ext) (m : EditModel) (msg : Msg)
    (h : projectFilterInv m) : projectFilterInv (EditModel.update ext m msg).1 := by
  rcases m with ⟨allocs, projects, cursor, field, textValue, editing, filtered⟩
  cases editing with
  | false =>
    cases msg with
    | key k =>
      simp only [EditModel.update, Bool.false_eq_true, if_false,
        EditModel.updateNavigating]
      split_ifs <;>
        first
          | (intro he _; cases he)
          | (cases field with
             | project =>
               intro _ _
               exact (filterProjects_empty_query projects).symm
             | minutes => intro _ hf; cases hf
             | description => intro _ hf; cases hf)
    | windowSize w h' => exact h
    | aiResponse s e => exact h
    | submitDone es e => exact h
    | thinking t => exact h
    | thinkingDone => exact h
    | tick => exact h
    | batchAIResponse s e => exact h
    | batchSubmitDone es e => exact h
    | widget t => exact h
  | true =>
    cases msg with
    | key k =>
      simp only [EditModel.update, if_true, EditModel.updateEditing]
      split_ifs with h1 h2 h3
      · intro he _; cases he
      · intro he _; cases he
      · intro _ _; rfl
      · intro _ hf
        exact absurd hf h3
    | windowSize w h' =>
      simp only [EditModel.update, if_true, EditModel.updateEditing]
      split_ifs with h1
      · intro _ _; rfl
      · intro _ hf; exact absurd hf h1
    | aiResponse s e =>
      simp only [EditModel.update, if_true, EditModel.updateEditing]
      split_ifs with h1
      · intro _ _; rfl
      · intro _ hf; exact absurd hf h1
    | submitDone es e =>
      simp only [EditModel.update, if_true, EditModel.updateEditing]
      split_ifs with h1
      · intro _ _; rfl
      · intro _ hf; exact absurd hf h1
    | thinking t =>
      simp only [EditModel.update, if_true, EditModel.updateEditing]
      split_ifs with h1
      · intro _ _; rfl
      · intro _ hf; exact absurd hf h1
    | thinkingDone =>
      simp only [EditModel.update, if_true, EditModel.updateEditing]
      split_ifs with h1
      · intro _ _; rfl
      · intro _ hf; exact absurd hf h1
    | tick =>
      simp only [EditModel.update, if_true, EditModel.updateEditing]
      split_ifs with h1
      · intro _ _; rfl
      · intro _ hf; exact absurd hf h1
    | batchAIResponse s e =>
      simp only [EditModel.update, if_true, EditModel.updateEditing]
      split_ifs with h1
      · intro _ _; rfl
      · intro _ hf; exact absurd hf h1
    | batchSubmitDone es e =>
      simp only [EditModel.update, if_true, EditModel.updateEditing]
      split_ifs with h1
      · intro _ _; rfl
      · intro _ hf; exact absurd hf h1
    | widget t =>
      simp only [EditModel.update, if_true, EditModel.updateEditing]
      split_ifs with h1
      · intro _ _; rfl
      · intro _ hf; exact absurd hf h1

/-- The filter invariant is preserved along any message sequence. -/
theorem projectFilterInv_foldl (ext : Ext) (msgs : List Msg) :
    ∀ m : EditModel, projectFilterInv m →
      projectFilterInv (msgs.foldl (fun s msg => (EditModel.update ext s msg).1) m) := by
  induction msgs with
  | nil => intro m h; exact h
  | cons msg rest ih =>
    intro m h
    exact ih _ (projectFilterInv_step ext m msg h)

/-- The filter invariant holds at the end of every edit session. -/
theorem projectFilterInv_editSession (ext : Ext) (allocs : List Allocation)
    (projects : List Project) (msgs : List Msg) :
    projectFilterInv (editSession ext allocs projects msgs) := by
  refine projectFilterInv_foldl ext msgs (newEditModel allocs projects) ?_
  intro he _
  cases he

/-- C4: in any edit session with a live project-field edit, the
candidate list is exactly the subsequence of the full project list
whose names contain the entered text case-insensitively; committing
with enter leaves the allocations untouched when the candidate list is
empty and otherwise always writes the first candidate's id and name
into the allocation under the cursor. -/
theorem c4_project_filter_and_commit (ext : Ext) (allocs : List Allocation)
    (projects : List Project) (msgs : List Msg) :
    ((editSession ext allocs projects msgs).editing = true →
     (editSession ext allocs projects msgs).field = .project →
       ((editSession ext allocs projects msgs).filtered.Sublist
          (editSession ext allocs projects msgs).projects ∧
        ∀ p, p ∈ (editSession ext allocs projects msgs).filtered ↔
          (p ∈ (editSession ext allocs projects msgs).projects ∧
           goContains (goToLower p.name)
             (goToLower (editSession ext allocs projects msgs).textValue) = true))) ∧
    ((editSession ext allocs projects msgs).editing = true →
     (editSession ext allocs projects msgs).field = .project →
     (editSession ext allocs projects msgs).filtered = [] →
       (EditModel.update ext (editSession ext allocs projects msgs)
         (.key "enter")).1.allocations =
         (editSession ext allocs projects msgs).allocations) ∧
    (∀ p ps, (editSession ext allocs projects msgs).editing = true →
     (editSession ext allocs projects msgs).field = .project →
     (editSession ext allocs projects msgs).filtered = p :: ps →
       (EditModel.update ext (editSession ext allocs projects msgs)
         (.key "enter")).1.allocations =
         (editSession ext allocs projects msgs).allocations.set
           (editSession ext allocs projects msgs).cursor.toNat
           ({(editSession ext allocs projects msgs).curAlloc with
               projectID := p.id, projectName := p.name})) := by
  have hinv := projectFilterInv_editSession ext allocs projects msgs
  refine ⟨?_, ?_, ?_⟩
  · intro he hf
    have hfil := hinv he hf
    constructor
    · rw [hfil]
      exact List.filter_sublist _
    · intro p
      rw [hfil]
      exact List.mem_filter
  · intro he hf hnil
    have hstep : EditModel.update ext (editSession ext allocs projects msgs)
        (.key "enter") =
        ({(editSession ext allocs projects msgs).applyEdit with editing := false},
         .none) := by
      simp only [EditModel.update, he, if_true]
      rfl
    rw [hstep]
    show (editSession ext allocs projects msgs).applyEdit.allocations = _
    unfold EditModel.applyEdit
    rw [hf, hnil]
  · intro p ps he hf hcons
    have hstep : EditModel.update ext (editSession ext allocs projects msgs)
        (.key "enter") =
        ({(editSession ext allocs projects msgs).applyEdit with editing := false},
         .none) := by
      simp only [EditModel.update, he, if_true]
      rfl
    rw [hstep]
    show (editSession ext allocs projects msgs).applyEdit.allocations = _
    unfold EditModel.applyEdit
    rw [hf, hcons]

/-- C4 witness: typing "b" into the project field of a fresh editor
over projects Alpha and Beta filters the candidates to exactly Beta,
and committing writes Beta (filtered index 0) into the allocation. -/
theorem c4_project_filter_and_commit_witness :
    ((editSession extAppendKeys [sampleAllocation] sampleProjects
        [Msg.key "enter", Msg.key "b"]).filtered.Sublist
      (editSession extAppendKeys [sampleAllocation] sampleProjects
        [Msg.key "enter", Msg.key "b"]).projects) ∧
    ((⟨"p2", "Beta", ""⟩ : Project) ∈ (editSession extAppendKeys [sampleAllocation]
        sampleProjects [Msg.key "enter", Msg.key "b"]).filtered ↔
      ((⟨"p2", "Beta", ""⟩ : Project) ∈ (editSession extAppendKeys [sampleAllocation]
        sampleProjects [Msg.key "enter", Msg.key "b"]).projects ∧
       goContains (goToLower "Beta")
         (goToLower (editSession extAppendKeys [sampleAllocation] sampleProjects
           [Msg.key "enter", Msg.key "b"]).textValue) = true)) ∧
    (EditModel.update extAppendKeys (editSession extAppendKeys [sampleAllocation]
        sampleProjects [Msg.key "enter", Msg.key "b"]) (.key "enter")).1.allocations =
      (editSession extAppendKeys [sampleAllocation] sampleProjects
        [Msg.key "enter", Msg.key "b"]).allocations.set
        (editSession extAppendKeys [sampleAllocation] sampleProjects
          [Msg.key "enter", Msg.key "b"]).cursor.toNat
        ({(editSession extAppendKeys [sampleAllocation] sampleProjects
            [Msg.key "enter", Msg.key "b"]).curAlloc with
            projectID := "p2", projectName := "Beta"}) := by
  have h := c4_project_filter_and_commit extAppendKeys [sampleAllocation]
    sampleProjects [Msg.key "enter", Msg.key "b"]
  exact ⟨(h.1 rfl rfl).1, (h.1 rfl rfl).2 ⟨"p2", "Beta", ""⟩,
    h.2.2 ⟨"p2", "Beta", ""⟩ [] rfl rfl rfl⟩

/-- The clamped decrement of the up key preserves the cursor
invariant. -/
theorem cursorInv_up {len : Nat} {c : Int} (h : cursorInv len c) :
    cursorInv len (if c > 0 then c - 1 else c) := by
  obtain ⟨h1, h2, h3⟩ := h
  by_cases hl : len = 0
  · subst hl
    rw [h2 rfl]
    exact ⟨le_refl 0, fun _ => rfl, fun h0 => absurd h0 (by omega)⟩
  · have hlen : 0 < len := Nat.pos_of_ne_zero hl
    have h3' := h3 hlen
    refine ⟨?_, fun h0 => absurd h0 hl, fun _ => ?_⟩ <;> split_ifs <;> omega

/-- The clamped increment of the down key preserves the cursor
invariant. -/
theorem cursorInv_down {len : Nat} {c : Int} (h : cursorInv len c) :
    cursorInv len (if c < (len : Int) - 1 then c + 1 else c) := by
  obtain ⟨h1, h2, h3⟩ := h
  by_cases hl : len = 0
  · subst hl
    rw [h2 rfl]
    have : ¬((0 : Int) < (0 : Nat) - 1) := by omega
    rw [if_neg this]
    exact ⟨le_refl 0, fun _ => rfl, fun h0 => absurd h0 (by omega)⟩
  · have hlen : 0 < len := Nat.pos_of_ne_zero hl
    have h3' := h3 hlen
    refine ⟨?_, fun h0 => absurd h0 hl, fun _ => ?_⟩ <;> split_ifs <;> omega

/-- A fresh cursor satisfies the invariant. -/
theorem cursorInv_zero (len : Nat) : cursorInv len 0 :=
  ⟨le_refl 0, fun _ => rfl, fun h => by exact_mod_cast h⟩

/-- An unclamped decrement (guard already known) preserves the cursor
invariant. -/
theorem cursorInv_pred {len : Nat} {c : Int} (h : cursorInv len c) (hpos : c > 0) :
    cursorInv len (c - 1) := by
  obtain ⟨h1, h2, h3⟩ := h
  have hl : len ≠ 0 := fun h0 => by rw [h2 h0] at hpos; omega
  have h3' := h3 (Nat.pos_of_ne_zero hl)
  exact ⟨by omega, fun h0 => absurd h0 hl, fun _ => by omega⟩

/-- An unclamped increment (guard already known) preserves the cursor
invariant. -/
theorem cursorInv_succ {len : Nat} {c : Int} (h : cursorInv len c)
    (hlt : c < (len : Int) - 1) : cursorInv len (c + 1) := by
  obtain ⟨h1, h2, h3⟩ := h
  have hl : len ≠ 0 := by
    intro h0
    rw [h0] at hlt
    simp at hlt
    omega
  exact ⟨by omega, fun h0 => absurd h0 hl, fun _ => by omega⟩

/-- A reviewer up/down/k/j key keeps the state, the suggestion and
the cursor invariant. -/
theorem updateSuggestion_updown_step (ext : Ext) (a : App) (k : String)
    (hs : a.state = .suggestion)
    (hk : k = "up" ∨ k = "k" ∨ k = "down" ∨ k = "j") :
    (App.update ext a (.key k)).1.state = .suggestion ∧
    (App.update ext a (.key k)).1.suggestions.suggestion = a.suggestions.suggestion ∧
    (cursorInv a.suggestions.suggestion.allocations.length a.suggestions.cursor →
      cursorInv a.suggestions.suggestion.allocations.length
        (App.update ext a (.key k)).1.suggestions.cursor) := by
  have hred : App.update ext a (.key k) = App.dispatch ext a (.key k) := by
    rcases hk with rfl | rfl | rfl | rfl <;> rfl
  rw [hred, App.dispatch, hs]
  rcases hk with rfl | rfl | rfl | rfl
  · exact ⟨hs, rfl, fun hc => cursorInv_up hc⟩
  · exact ⟨hs, rfl, fun hc => cursorInv_up hc⟩
  · exact ⟨hs, rfl, fun hc => cursorInv_down hc⟩
  · exact ⟨hs, rfl, fun hc => cursorInv_down hc⟩

/-- Folding reviewer up/down keys keeps the state, the suggestion and
the cursor invariant. -/
theorem reviewer_cursor_foldl (ext : Ext) (keys : List String) :
    ∀ a : App, a.state = .suggestion →
      (∀ k ∈ keys, k = "up" ∨ k = "k" ∨ k = "down" ∨ k = "j") →
      cursorInv a.suggestions.suggestion.allocations.length a.suggestions.cursor →
      ((keys.foldl (fun s k => (App.update ext s (.key k)).1) a).state = .suggestion ∧
       (keys.foldl (fun s k => (App.update ext s (.key k)).1) a).suggestions.suggestion =
         a.suggestions.suggestion ∧
       cursorInv a.suggestions.suggestion.allocations.length
         (keys.foldl (fun s k => (App.update ext s (.key k)).1) a).suggestions.cursor) := by
  induction keys with
  | nil => intro a hs _ hc; exact ⟨hs, rfl, hc⟩
  | cons k rest ih =>
    intro a hs hk hc
    obtain ⟨h1, h2, h3⟩ :=
      updateSuggestion_updown_step ext a k hs (hk k (List.mem_cons_self k rest))
    obtain ⟨g1, g2, g3⟩ := ih (App.update ext a (.key k)).1 h1
      (fun k' hk' => hk k' (List.mem_cons_of_mem _ hk')) (by rw [h2]; exact h3 hc)
    rw [h2] at g2 g3
    exact ⟨g1, g2, g3⟩

/-- `applyEdit` never moves the cursor. -/
theorem EditModel.applyEdit_cursor (m : EditModel) : m.applyEdit.cursor = m.cursor := by
  rcases m with ⟨allocs, projects, cursor, field, tv, editing, filtered⟩
  cases field with
  | project => cases filtered <;> rfl
  | minutes =>
    cases h : parseGoInt tv with
    | none => simp only [EditModel.applyEdit, h]
    | some v =>
      simp only [EditModel.applyEdit, h]
      split_ifs <;> rfl
  | description =>
    simp only [EditModel.applyEdit]
    split_ifs <;> rfl

/-- `applyEdit` never changes the number of allocations. -/
theorem EditModel.applyEdit_length (m : EditModel) :
    m.applyEdit.allocations.length = m.allocations.length := by
  rcases m with ⟨allocs, projects, cursor, field, tv, editing, filtered⟩
  cases field with
  | project => cases filtered <;> simp [EditModel.applyEdit, List.length_set]
  | minutes =>
    cases h : parseGoInt tv with
    | none => simp only [EditModel.applyEdit, h]
    | some v =>
      simp only [EditModel.applyEdit, h]
      split_ifs <;> simp [List.length_set]
  | description =>
    simp only [EditModel.applyEdit]
    split_ifs <;> simp [List.length_set]

/-- Every single editor update preserves the allocation count and the
cursor invariant. -/
theorem EditModel.update_cursorInv (ext : Ext) (m : EditModel) (msg : Msg) :
    (EditModel.update ext m msg).1.allocations.length = m.allocations.length ∧
    (cursorInv m.allocations.length m.cursor →
      cursorInv m.allocations.length (EditModel.update ext m msg).1.cursor) := by
  rcases m with ⟨allocs, projects, cursor, field, tv, editing, filtered⟩
  cases editing with
  | true =>
    cases msg with
    | key k =>
      simp only [EditModel.update, if_true, EditModel.updateEditing]
      split_ifs
      · exact ⟨EditModel.applyEdit_length _, fun hc => by
          rw [EditModel.applyEdit_cursor]; exact hc⟩
      · exact ⟨rfl, fun hc => hc⟩
      · exact ⟨rfl, fun hc => hc⟩
      · exact ⟨rfl, fun hc => hc⟩
    | windowSize w h =>
      simp only [EditModel.update, if_true, EditModel.updateEditing]
      split_ifs <;> exact ⟨rfl, fun hc => hc⟩
    | aiResponse s e =>
      simp only [EditModel.update, if_true, EditModel.updateEditing]
      split_ifs <;> exact ⟨rfl, fun hc => hc⟩
    | submitDone es e =>
      simp only [EditModel.update, if_true, EditModel.updateEditing]
      split_ifs <;> exact ⟨rfl, fun hc => hc⟩
    | thinking t =>
      simp only [EditModel.update, if_true, EditModel.updateEditing]
      split_ifs <;> exact ⟨rfl, fun hc => hc⟩
    | thinkingDone =>
      simp only [EditModel.update, if_true, EditModel.updateEditing]
      split_ifs <;> exact ⟨rfl, fun hc => hc⟩
    | tick =>
      simp only [EditModel.update, if_true, EditModel.updateEditing]
      split_ifs <;> exact ⟨rfl, fun hc => hc⟩
    | batchAIResponse s e =>
      simp only [EditModel.update, if_true, EditModel.updateEditing]
      split_ifs <;> exact ⟨rfl, fun hc => hc⟩
    | batchSubmitDone es e =>
      simp only [EditModel.update, if_true, EditModel.updateEditing]
      split_ifs <;> exact ⟨rfl, fun hc => hc⟩
    | widget t =>
      simp only [EditModel.update, if_true, EditModel.updateEditing]
      split_ifs <;> exact ⟨rfl, fun hc => hc⟩
  | false =>
    cases msg with
    | key k =>
      simp only [EditModel.update, Bool.false_eq_true, if_false,
        EditModel.updateNavigating]
      split_ifs
      · exact ⟨rfl, fun hc => cursorInv_pred hc (by assumption)⟩
      · exact ⟨rfl, fun hc => hc⟩
      · exact ⟨rfl, fun hc => cursorInv_succ hc (by assumption)⟩
      · exact ⟨rfl, fun hc => hc⟩
      · exact ⟨rfl, fun hc => hc⟩
      · cases field <;> exact ⟨rfl, fun hc => hc⟩
      · exact ⟨rfl, fun hc => hc⟩
    | windowSize w h => exact ⟨rfl, fun hc => hc⟩
    | aiResponse s e => exact ⟨rfl, fun hc => hc⟩
    | submitDone es e => exact ⟨rfl, fun hc => hc⟩
    | thinking t => exact ⟨rfl, fun hc => hc⟩
    | thinkingDone => exact ⟨rfl, fun hc => hc⟩
    | tick => exact ⟨rfl, fun hc => hc⟩
    | batchAIResponse s e => exact ⟨rfl, fun hc => hc⟩
    | batchSubmitDone es e => exact ⟨rfl, fun hc => hc⟩
    | widget t => exact ⟨rfl, fun hc => hc⟩

/-- Batch `applyEdit` never moves the cursor. -/
theorem batchApplyEdit_cursor (m : BatchEditModel) :
    m.applyEdit.cursor = m.cursor := by
  rcases m with ⟨allocs, projects, cursor, field, tv, editing, filtered⟩
  cases field with
  | project => cases filtered <;> rfl
  | minutes =>
    cases h : parseGoInt tv with
    | none => simp only [BatchEditModel.applyEdit, h]
    | some v =>
      simp only [BatchEditModel.applyEdit, h]
      split_ifs <;> rfl
  | description =>
    simp only [BatchEditModel.applyEdit]
    split_ifs <;> rfl
  | startTime =>
    simp only [BatchEditModel.applyEdit]
    split_ifs <;> rfl
  | endTime =>
    simp only [BatchEditModel.applyEdit]
    split_ifs <;> rfl

/-- Batch `applyEdit` never changes the number of allocations. -/
theorem batchApplyEdit_length (m : BatchEditModel) :
    m.applyEdit.allocations.length = m.allocations.length := by
  rcases m with ⟨allocs, projects, cursor, field, tv, editing, filtered⟩
  cases field with
  | project => cases filtered <;> simp [BatchEditModel.applyEdit, List.length_set]
  | minutes =>
    cases h : parseGoInt tv with
    | none => simp only [BatchEditModel.applyEdit, h]
    | some v =>
      simp only [BatchEditModel.applyEdit, h]
      split_ifs <;> simp [List.length_set]
  | description =>
    simp only [BatchEditModel.applyEdit]
    split_ifs <;> simp [List.length_set]
  | startTime =>
    simp only [BatchEditModel.applyEdit]
    split_ifs <;> simp [List.length_set]
  | endTime =>
    simp only [BatchEditModel.applyEdit]
    split_ifs <;> simp [List.length_set]

/-- Every batch editor update preserves the allocation count and the
cursor invariant. -/
theorem batchEditModel_update_cursorInv (ext : Ext) (m : BatchEditModel) (msg : Msg) :
    (BatchEditModel.update ext m msg).1.allocations.length = m.allocations.length ∧
    (cursorInv m.allocations.length m.cursor →
      cursorInv m.allocations.length (BatchEditModel.update ext m msg).1.cursor) := by
  rcases m with ⟨allocs, projects, cursor, field, tv, editing, filtered⟩
  cases editing with
  | true =>
    cases msg with
    | key k =>
      simp only [BatchEditModel.update, if_true, BatchEditModel.updateEditing]
      split_ifs
      · exact ⟨batchApplyEdit_length _, fun hc => by
          rw [batchApplyEdit_cursor]; exact hc⟩
      · exact ⟨rfl, fun hc => hc⟩
      · exact ⟨rfl, fun hc => hc⟩
      · exact ⟨rfl, fun hc => hc⟩
    | windowSize w h =>
      simp only [BatchEditModel.update, if_true, BatchEditModel.updateEditing]
      split_ifs <;> exact ⟨rfl, fun hc => hc⟩
    | aiResponse s e =>
      simp only [BatchEditModel.update, if_true, BatchEditModel.updateEditing]
      split_ifs <;> exact ⟨rfl, fun hc => hc⟩
    | submitDone es e =>
      simp only [BatchEditModel.update, if_true, BatchEditModel.updateEditing]
      split_ifs <;> exact ⟨rfl, fun hc => hc⟩
    | thinking t =>
      simp only [BatchEditModel.update, if_true, BatchEditModel.updateEditing]
      split_ifs <;> exact ⟨rfl, fun hc => hc⟩
    | thinkingDone =>
      simp only [BatchEditModel.update, if_true, BatchEditModel.updateEditing]
      split_ifs <;> exact ⟨rfl, fun hc => hc⟩
    | tick =>
      simp only [BatchEditModel.update, if_true, BatchEditModel.updateEditing]
      split_ifs <;> exact ⟨rfl, fun hc => hc⟩
    | batchAIResponse s e =>
      simp only [BatchEditModel.update, if_true, BatchEditModel.updateEditing]
      split_ifs <;> exact ⟨rfl, fun hc => hc⟩
    | batchSubmitDone es e =>
      simp only [BatchEditModel.update, if_true, BatchEditModel.updateEditing]
      split_ifs <;> exact ⟨rfl, fun hc => hc⟩
    | widget t =>
      simp only [BatchEditModel.update, if_true, BatchEditModel.updateEditing]
      split_ifs <;> exact ⟨rfl, fun hc => hc⟩
  | false =>
    cases msg with
    | key k =>
      simp only [BatchEditModel.update, Bool.false_eq_true, if_false,
        BatchEditModel.updateNavigating]
      split_ifs
      · exact ⟨rfl, fun hc => cursorInv_pred hc (by assumption)⟩
      · exact ⟨rfl, fun hc => hc⟩
      · exact ⟨rfl, fun hc => cursorInv_succ hc (by assumption)⟩
      · exact ⟨rfl, fun hc => hc⟩
      · exact ⟨rfl, fun hc => hc⟩
      · cases field <;> exact ⟨rfl, fun hc => hc⟩
      · exact ⟨rfl, fun hc => hc⟩
    | windowSize w h => exact ⟨rfl, fun hc => hc⟩
    | aiResponse s e => exact ⟨rfl, fun hc => hc⟩
    | submitDone es e => exact ⟨rfl, fun hc => hc⟩
    | thinking t => exact ⟨rfl, fun hc => hc⟩
    | thinkingDone => exact ⟨rfl, fun hc => hc⟩
    | tick => exact ⟨rfl, fun hc => hc⟩
    | batchAIResponse s e => exact ⟨rfl, fun hc => hc⟩
    | batchSubmitDone es e => exact ⟨rfl, fun hc => hc⟩
    | widget t => exact ⟨rfl, fun hc => hc⟩

/-- The cursor invariant holds after any message sequence to a single
editor. -/
theorem editModel_cursor_foldl (ext : Ext) (msgs : List Msg) :
    ∀ m : EditModel, cursorInv m.allocations.length m.cursor →
      cursorInv (msgs.foldl (fun s msg => (EditModel.update ext s msg).1) m).allocations.length
        (msgs.foldl (fun s msg => (EditModel.update ext s msg).1) m).cursor := by
  induction msgs with
  | nil => intro m h; exact h
  | cons msg rest ih =>
    intro m h
    obtain ⟨hlen, hinv⟩ := EditModel.update_cursorInv ext m msg
    exact ih (EditModel.update ext m msg).1 (by rw [hlen]; exact hinv h)

/-- The cursor invariant holds after any message sequence to a batch
editor. -/
theorem batchEditModel_cursor_foldl (ext : Ext) (msgs : List Msg) :
    ∀ m : BatchEditModel, cursorInv m.allocations.length m.cursor →
      cursorInv
        (msgs.foldl (fun s msg => (BatchEditModel.update ext s msg).1) m).allocations.length
        (msgs.foldl (fun s msg => (BatchEditModel.update ext s msg).1) m).cursor := by
  induction msgs with
  | nil => intro m h; exact h
  | cons msg rest ih =>
    intro m h
    obtain ⟨hlen, hinv⟩ := batchEditModel_update_cursorInv ext m msg
    exact ih (BatchEditModel.update ext m msg).1 (by rw [hlen]; exact hinv h)

/-- C9: under arbitrary sequences of up/down (k/j) keys the reviewer's
cursor keeps the invariant — never negative, pinned to 0 on an empty
list, always strictly below the length otherwise — and the single and
batch editors keep the same invariant under arbitrary message
sequences from a fresh editor. -/
theorem c9_cursor_always_in_bounds (ext : Ext) (a : App) (keys : List String)
    (ha : a.state = .suggestion)
    (hk : ∀ k ∈ keys, k = "up" ∨ k = "k" ∨ k = "down" ∨ k = "j")
    (hc : cursorInv a.suggestions.suggestion.allocations.length a.suggestions.cursor)
    (allocs : List Allocation) (ballocs : List BatchAllocation)
    (projects : List Project) (msgs : List Msg) :
    cursorInv a.suggestions.suggestion.allocations.length
      (keys.foldl (fun s k => (App.update ext s (.key k)).1) a).suggestions.cursor ∧
    cursorInv (editSession ext allocs projects msgs).allocations.length
      (editSession ext allocs projects msgs).cursor ∧
    cursorInv (batchEditSession ext ballocs projects msgs).allocations.length
      (batchEditSession ext ballocs projects msgs).cursor := by
  refine ⟨(reviewer_cursor_foldl ext keys a ha hk hc).2.2, ?_, ?_⟩
  · exact editModel_cursor_foldl ext msgs (newEditModel allocs projects)
      (cursorInv_zero _)
  · exact batchEditModel_cursor_foldl ext msgs (newBatchEditModel ballocs projects)
      (cursorInv_zero _)

/-- C9 witness: a concrete two-allocation reviewer driven by
down/down/up (the cursor ends at 1, inside bounds), plus fresh
editors driven through field edits and navigation. -/
theorem c9_cursor_always_in_bounds_witness :
    cursorInv sampleAppSuggestion.suggestions.suggestion.allocations.length
      (["down", "down", "up"].foldl
        (fun s k => (App.update extAppendKeys s (.key k)).1)
        sampleAppSuggestion).suggestions.cursor ∧
    cursorInv (editSession extAppendKeys [sampleAllocation] sampleProjects
        [Msg.key "down", Msg.key "enter", Msg.key "up"]).allocations.length
      (editSession extAppendKeys [sampleAllocation] sampleProjects
        [Msg.key "down", Msg.key "enter", Msg.key "up"]).cursor :=
  ⟨(c9_cursor_always_in_bounds extAppendKeys sampleAppSuggestion ["down", "down", "up"]
      rfl (by decide) (cursorInv_zero _) [] [] [] []).1,
   (c9_cursor_always_in_bounds extAppendKeys sampleAppSuggestion []
      rfl (by decide) (cursorInv_zero _) [sampleAllocation] [] sampleProjects
      [Msg.key "down", Msg.key "enter", Msg.key "up"]).2.1⟩

/-- The seed is below the running maximum of a fold. -/
theorem le_foldl_max (l : List Nat) : ∀ acc : Nat, acc ≤ l.foldl max acc := by
  induction l with
  | nil => intro acc; exact le_refl acc
  | cons x l ih =>
    intro acc
    exact le_trans (le_max_left acc x) (ih (max acc x))

/-- Every member is below the running maximum of a fold. -/
theorem mem_le_foldl_max (l : List Nat) : ∀ (acc x : Nat), x ∈ l → x ≤ l.foldl max acc := by
  induction l with
  | nil => intro acc x hx; cases hx
  | cons y l ih =>
    intro acc x hx
    rcases List.mem_cons.mp hx with rfl | hx'
    · exact le_trans (le_max_right acc x) (le_foldl_max l (max acc x))
    · exact ih (max acc y) x hx'

/-- The running maximum is bounded by any common bound. -/
theorem foldl_max_le (l : List Nat) : ∀ acc m : Nat, acc ≤ m → (∀ x ∈ l, x ≤ m) →
    l.foldl max acc ≤ m := by
  induction l with
  | nil => intro acc m h _; exact h
  | cons y l ih =>
    intro acc m h hx
    exact ih (max acc y) m (max_le h (hx y (List.mem_cons_self y l)))
      (fun x hx' => hx x (List.mem_cons_of_mem y hx'))

/-- The observed last activity never exceeds a bound on all chunks. -/
theorem lastActivityAt_le (chunks : List Nat) (t m : Nat)
    (h : ∀ c ∈ chunks, c ≤ m) : lastActivityAt chunks t ≤ m :=
  foldl_max_le _ 0 m (Nat.zero_le m)
    (fun x hx => h x (List.mem_of_mem_filter hx))

/-- A chunk that has arrived by time `t` is at most the observed last
activity at `t`. -/
theorem chunk_le_lastActivityAt {chunks : List Nat} {c t : Nat}
    (hc : c ∈ chunks) (hct : c ≤ t) : c ≤ lastActivityAt chunks t :=
  mem_le_foldl_max _ 0 c (List.mem_filter.mpr ⟨hc, by simpa using hct⟩)

/-- If the watchdog cancels, it does so at a poll time (a multiple of
its 5-second period) whose observed idle time has reached the
ceiling. -/
theorem idleTimeoutRun_sound (chunks : List Nat) (L : Nat) :
    ∀ (fuel t r : Nat), t % 5 = 0 →
      idleTimeoutRun chunks L fuel t = some r →
      r % 5 = 0 ∧ lastActivityAt chunks r + L ≤ r := by
  intro fuel
  induction fuel with
  | zero => intro t r _ h; cases h
  | succ fuel ih =>
    intro t r ht h
    simp only [idleTimeoutRun] at h
    split_ifs at h with hcond
    · cases h
      exact ⟨by omega, hcond⟩
    · exact ih (t + 5) r (by omega) h

/-- If the watchdog has not cancelled, it has not yet reached the
first poll past the stall bound. -/
theorem idleTimeoutRun_none_bound (chunks : List Nat) (L m : Nat)
    (hm : ∀ c ∈ chunks, c ≤ m) :
    ∀ fuel t, idleTimeoutRun chunks L fuel t = none →
      fuel = 0 ∨ t + 5 * fuel < m + L + 5 := by
  intro fuel
  induction fuel with
  | zero => intro t _; exact Or.inl rfl
  | succ fuel ih =>
    intro t h
    simp only [idleTimeoutRun] at h
    split_ifs at h with hcond
    push_neg at hcond
    have hlast := lastActivityAt_le chunks (t + 5) m hm
    rcases ih (t + 5) h with h0 | hlt
    · right; omega
    · right; omega

/-- A cancellation fires either at the very first poll or before the
stall bound. -/
theorem idleTimeoutRun_some_bound (chunks : List Nat) (L m : Nat)
    (hm : ∀ c ∈ chunks, c ≤ m) :
    ∀ fuel t r, idleTimeoutRun chunks L fuel t = some r →
      r = t + 5 ∨ r < m + L + 5 := by
  intro fuel
  induction fuel with
  | zero => intro t r h; cases h
  | succ fuel ih =>
    intro t r h
    simp only [idleTimeoutRun] at h
    split_ifs at h with hcond
    · cases h
      exact Or.inl rfl
    · push_neg at hcond
      have hlast := lastActivityAt_le chunks (t + 5) m hm
      rcases ih (t + 5) r h with h1 | h2
      · right; omega
      · right; exact h2

/-- If every poll observes activity within the idle window, the
watchdog never cancels. -/
theorem idleTimeoutRun_none_of_activity (chunks : List Nat) (L : Nat)
    (hactive : ∀ u, u % 5 = 0 → u < lastActivityAt chunks u + L) :
    ∀ fuel t, t % 5 = 0 → idleTimeoutRun chunks L fuel t = none := by
  intro fuel
  induction fuel with
  | zero => intro t _; rfl
  | succ fuel ih =>
    intro t ht
    simp only [idleTimeoutRun]
    rw [if_neg (by have := hactive (t + 5) (by omega); omega)]
    exact ih (t + 5) (by omega)

/-- C8: the idle watchdog records last activity from the streaming
chunks, polls on a fixed 5-second period, and cancels exactly when a
poll observes that the elapsed time since the last activity has
reached the 2-minute idle ceiling: (i) any cancellation happens at a
poll time preceded by a full idle window — no chunk arrived within the
2 minutes before it; (ii) if the stream stalls (no chunk after time
`m`), a cancellation fires by `m + 125` seconds regardless of how long
the call has been running; (iii) while every poll still sees activity
within the window, no cancellation fires, again independent of total
elapsed time. -/
theorem c8_idle_watchdog_contract (chunks : List Nat) :
    (∀ fuel r, idleTimeoutCancelTime chunks startAIIdleLimitSeconds fuel = some r →
       (r % 5 = 0 ∧ lastActivityAt chunks r + startAIIdleLimitSeconds ≤ r ∧
        ∀ c ∈ chunks, c ≤ r → c + startAIIdleLimitSeconds ≤ r)) ∧
    (∀ m, (∀ c ∈ chunks, c ≤ m) →
       ∃ r, idleTimeoutCancelTime chunks startAIIdleLimitSeconds (m + 125) = some r ∧
         r ≤ m + 125) ∧
    ((∀ u, u % 5 = 0 → u < lastActivityAt chunks u + startAIIdleLimitSeconds) →
       ∀ fuel, idleTimeoutCancelTime chunks startAIIdleLimitSeconds fuel = none) := by
  refine ⟨?_, ?_, ?_⟩
  · intro fuel r h
    obtain ⟨h5, hlast⟩ :=
      idleTimeoutRun_sound chunks startAIIdleLimitSeconds fuel 0 r rfl h
    refine ⟨h5, hlast, fun c hc hcr => ?_⟩
    have := chunk_le_lastActivityAt hc hcr
    omega
  · intro m hm
    cases heq : idleTimeoutCancelTime chunks startAIIdleLimitSeconds (m + 125) with
    | none =>
      rcases idleTimeoutRun_none_bound chunks startAIIdleLimitSeconds m hm
        (m + 125) 0 heq with h0 | hlt
      · omega
      · simp only [startAIIdleLimitSeconds] at hlt
        omega
    | some r =>
      refine ⟨r, rfl, ?_⟩
      rcases idleTimeoutRun_some_bound chunks startAIIdleLimitSeconds m hm
        (m + 125) 0 r heq with h1 | h2
      · omega
      · simp only [startAIIdleLimitSeconds] at h2
        omega
  · intro hactive fuel
    exact idleTimeoutRun_none_of_activity chunks startAIIdleLimitSeconds hactive fuel 0 rfl

/-- C8 witness: a stream whose single chunk arrives at second 7 and
then stalls is cancelled by second 132; a stream with no chunks at all
is cancelled exactly at the 120-second poll, a multiple of the
5-second period. -/
theorem c8_idle_watchdog_contract_witness :
    (∃ r, idleTimeoutCancelTime [7] startAIIdleLimitSeconds 132 = some r ∧ r ≤ 132) ∧
    (idleTimeoutCancelTime [] startAIIdleLimitSeconds 30 = some 120 ∧ 120 % 5 = 0) :=
  ⟨(c8_idle_watchdog_contract [7]).2.1 7 (by decide),
   ⟨rfl, ((c8_idle_watchdog_contract []).1 30 120 rfl).1⟩⟩

end Clockr
